import Mathlib

/-!
  # Verification of the PubSub broker kernel

  A shallow embedding of the in-memory publish/subscribe broker
  (`PubSubSystem` in `src/pubsub.js`, `WebSocketHandler` in
  `src/websocket-handler.js`, `PubSubServer` in `src/server.js`).

  Modelling conventions:
  * JS `Map`s keyed by strings become functions `String → Option _`,
    updated pointwise; JS `Set`s (insertion ordered, duplicate free)
    become `List String` with guarded append and filter removal.
  * A WebSocket object is modelled by a `Transport` record reached
    through an identifier (`Nat`), mirroring JS reference sharing;
    `readyState = 1` is `WebSocket.OPEN`, `sendOk = false` models a
    `ws.send` that throws, and `sent` records the frames that were
    delivered to the peer.
  * `new Date().toISOString()` is an environment input: operations that
    stamp a timestamp take it as an explicit `ts : Nat` argument.
  * Thrown JS errors become `Except String _` results; since the JS
    methods mutate `this` in place even when they later throw, every
    operation returns the successor state together with its result.
-/

deriving instance DecidableEq for Except

namespace PubSub

/-- Backpressure policy (`options.backpressurePolicy`). -/
inductive Policy
  | dropOldest
  | disconnect
deriving DecidableEq, Repr

/-- A published event: the `publishedMessage` object built by
`PubSubSystem.publish` (`type: 'event'`, topic, opaque message, timestamp). -/
structure Event where
  topic : String
  message : String
  ts : Nat
deriving DecidableEq, Repr

/-- A frame sent over a transport: fan-out/replay events, `info` frames
(`connected`, `topic_deleted`) and `error` frames (`SLOW_CONSUMER`). -/
inductive Frame
  | event (e : Event)
  | info (topic : String) (msg : String)
  | error (code : String)
deriving DecidableEq, Repr

/-- A WebSocket as the kernel observes it: `readyState` (1 = OPEN),
whether `send` currently succeeds, and the frames delivered so far. -/
structure Transport where
  readyState : Nat
  sendOk : Bool
  sent : List Frame
deriving DecidableEq, Repr

/-- Model of `ws.send(JSON.stringify(f))`: on success the frame reaches the
peer; on failure (`sendOk = false`) the call throws and nothing changes. -/
def Transport.send (t : Transport) (f : Frame) : Transport × Bool :=
  if t.sendOk then ({ t with sent := t.sent ++ [f] }, true) else (t, false)

/-- Model of `ws.close(...)`: the socket leaves the OPEN state. -/
def Transport.close (t : Transport) : Transport :=
  { t with readyState := 3 }

/-- A topic record: `{ subscribers: Set, messageHistory: Array }`. -/
structure Topic where
  subscribers : List String
  messageHistory : List Event
deriving DecidableEq, Repr

/-- A subscriber record: `{ ws, topics: Set, queue: Array }`; `ws` is the
identifier of the bound transport. -/
structure Subscriber where
  ws : Nat
  topics : List String
  queue : List Frame
deriving DecidableEq, Repr

/-- The whole `PubSubSystem` state, together with the state of the
transports it holds references to. -/
structure Sys where
  maxQueueSize : Nat
  ringBufferSize : Nat
  backpressurePolicy : Policy
  topics : String → Option Topic
  subscribers : String → Option Subscriber
  topicStats : String → Option (Nat × Nat)
  totalMessages : Nat
  totalSubscribers : Nat
  transports : Nat → Transport

/-- JS `Set.add`: append only when absent (insertion order preserved). -/
def sadd (xs : List String) (x : String) : List String :=
  if x ∈ xs then xs else xs ++ [x]

/-- JS `Set.delete`: remove the element (no duplicates by construction). -/
def sdel (xs : List String) (x : String) : List String :=
  xs.filter (fun y => y ≠ x)

/-- Pointwise update of a string-keyed map. -/
def upd {α : Type} (m : String → Option α) (k : String) (v : Option α) :
    String → Option α :=
  fun q => if q = k then v else m q

/-- Pointwise update of the transport table. -/
def updT (m : Nat → Transport) (k : Nat) (v : Transport) : Nat → Transport :=
  fun q => if q = k then v else m q

/-- JS `x || d` for a numeric option: `undefined` and `0` both yield the
default (`0` is falsy). -/
def jsOr (o : Option Nat) (d : Nat) : Nat :=
  match o with
  | none => d
  | some n => if n = 0 then d else n

/-- JS `xs.slice(-n)` for `n > 0`: the last `min n xs.length` elements. -/
def takeLast {α : Type} (n : Nat) (xs : List α) : List α :=
  xs.drop (xs.length - n)

/-- Constructor of `PubSubSystem` (and the identical option plumbing in
`PubSubServer`): `options.maxQueueSize || 1000`,
`options.ringBufferSize || 100`, policy defaulting to `DROP_OLDEST`.
Every transport starts outside the OPEN state. -/
def initSys (maxQ ringB : Option Nat) (pol : Option Policy) : Sys where
  maxQueueSize := jsOr maxQ 1000
  ringBufferSize := jsOr ringB 100
  backpressurePolicy := pol.getD .dropOldest
  topics := fun _ => none
  subscribers := fun _ => none
  topicStats := fun _ => none
  totalMessages := 0
  totalSubscribers := 0
  transports := fun _ => { readyState := 0, sendOk := false, sent := [] }

/-- One iteration of the per-topic loop of `removeSubscriber`: delete the
client from the topic's subscriber set and refresh its subscriber-count
stat. -/
def dropFromTopic (cid tn : String) (s : Sys) : Sys :=
  match s.topics tn with
  | none => s
  | some t =>
      let t1 : Topic := { t with subscribers := sdel t.subscribers cid }
      let s2 := { s with topics := upd s.topics tn (some t1) }
      match s2.topicStats tn with
      | none => s2
      | some st =>
          { s2 with
            topicStats := upd s2.topicStats tn (some (st.1, t1.subscribers.length)) }

/-- The per-topic loop of `removeSubscriber`. -/
def removeSubscriberTopics (cid : String) : Sys → List String → Sys
  | s, [] => s
  | s, tn :: rest => removeSubscriberTopics cid (dropFromTopic cid tn s) rest

/-- `PubSubSystem.removeSubscriber`: detach the client from every topic in
its topic set, then discard the record. -/
def removeSubscriber (s : Sys) (cid : String) : Sys :=
  match s.subscribers cid with
  | none => s
  | some sub =>
      let s1 := removeSubscriberTopics cid s sub.topics
      { s1 with
        subscribers := upd s1.subscribers cid none
        totalSubscribers := s1.totalSubscribers - 1 }

/-- The drain loop of `flushSubscriberQueue`: send frames in FIFO order,
stopping at the first failing send (which leaves the unsent suffix). -/
def flushLoop : Transport → List Frame → Transport × List Frame
  | t, [] => (t, [])
  | t, f :: rest =>
      let r := t.send f
      if r.2 then flushLoop r.1 rest else (t, f :: rest)

/-- `PubSubSystem.flushSubscriberQueue`: no-op unless the record exists and
its transport is OPEN; otherwise drain the queue into the transport. -/
def flushSubscriberQueue (s : Sys) (cid : String) : Sys :=
  match s.subscribers cid with
  | none => s
  | some sub =>
      if (s.transports sub.ws).readyState ≠ 1 then s
      else
        let r := flushLoop (s.transports sub.ws) sub.queue
        { s with
          transports := updT s.transports sub.ws r.1
          subscribers := upd s.subscribers cid (some { sub with queue := r.2 }) }

/-- `PubSubSystem.enqueueMessage`: backpressure-aware enqueue. A closed
transport triggers `removeSubscriber` and throws `SUBSCRIBER_DISCONNECTED`;
a full queue either drops the head (`DROP_OLDEST`) and falls through to the
push, or (`DISCONNECT`) best-effort sends a `SLOW_CONSUMER` error frame and
closes the socket (both inside one `try`, so a throwing send skips the
close), removes the subscriber and throws `SLOW_CONSUMER`; otherwise push
and drain. -/
def enqueueMessage (s : Sys) (cid : String) (f : Frame) :
    Sys × Except String Unit :=
  match s.subscribers cid with
  | none => (s, .error "SUBSCRIBER_NOT_FOUND")
  | some sub =>
      if (s.transports sub.ws).readyState ≠ 1 then
        (removeSubscriber s cid, .error "SUBSCRIBER_DISCONNECTED")
      else if s.maxQueueSize ≤ sub.queue.length then
        match s.backpressurePolicy with
        | .dropOldest =>
            let sub1 : Subscriber := { sub with queue := sub.queue.tail ++ [f] }
            let s1 := { s with subscribers := upd s.subscribers cid (some sub1) }
            (flushSubscriberQueue s1 cid, .ok ())
        | .disconnect =>
            let t0 := s.transports sub.ws
            let t1 :=
              if t0.sendOk then
                Transport.close { t0 with sent := t0.sent ++ [Frame.error "SLOW_CONSUMER"] }
              else t0
            let s1 := { s with transports := updT s.transports sub.ws t1 }
            (removeSubscriber s1 cid, .error "SLOW_CONSUMER")
      else
        let sub1 : Subscriber := { sub with queue := sub.queue ++ [f] }
        let s1 := { s with subscribers := upd s.subscribers cid (some sub1) }
        (flushSubscriberQueue s1 cid, .ok ())

/-- `PubSubSystem.createTopic`. -/
def createTopic (s : Sys) (name : String) : Sys × Except String String :=
  match s.topics name with
  | some _ => (s, .error "TOPIC_ALREADY_EXISTS")
  | none =>
      ({ s with
          topics := upd s.topics name (some { subscribers := [], messageHistory := [] })
          topicStats := upd s.topicStats name (some (0, 0)) },
       .ok name)

/-- One iteration of the notification loop of `deleteTopic`: best-effort
direct `ws.send` of the `topic_deleted` info frame when the subscriber's
transport is OPEN (send failures are swallowed). -/
def notifyStep (tn cid : String) (s : Sys) : Sys :=
  match s.subscribers cid with
  | none => s
  | some sub =>
      if (s.transports sub.ws).readyState = 1 then
        { s with
          transports :=
            updT s.transports sub.ws
              ((s.transports sub.ws).send (Frame.info tn "topic_deleted")).1 }
      else s

/-- The notification loop of `deleteTopic`. -/
def notifyLoop (tn : String) : Sys → List String → Sys
  | s, [] => s
  | s, cid :: rest => notifyLoop tn (notifyStep tn cid s) rest

/-- One iteration of the detach loop of `deleteTopic`: remove the topic
name from the listed subscriber's topic set. -/
def detachStep (tn cid : String) (s : Sys) : Sys :=
  match s.subscribers cid with
  | none => s
  | some sub =>
      { s with
        subscribers :=
          upd s.subscribers cid (some { sub with topics := sdel sub.topics tn }) }

/-- The detach loop of `deleteTopic`. -/
def detachLoop (tn : String) : Sys → List String → Sys
  | s, [] => s
  | s, cid :: rest => detachLoop tn (detachStep tn cid s) rest

/-- `PubSubSystem.deleteTopic`: notify subscribers directly, detach them,
then discard the topic and its stats. -/
def deleteTopic (s : Sys) (name : String) : Sys × Except String String :=
  match s.topics name with
  | none => (s, .error "TOPIC_NOT_FOUND")
  | some t =>
      let s1 := notifyLoop name s t.subscribers
      let s2 := detachLoop name s1 t.subscribers
      ({ s2 with
          topics := upd s2.topics name none
          topicStats := upd s2.topicStats name none },
       .ok name)

/-- Result value of a successful `subscribe`/`unsubscribe`. -/
structure SubResult where
  topic : String
  clientId : String
deriving DecidableEq, Repr

/-- The replay loop of `subscribe`: enqueue each replayed history event;
an exception from `enqueueMessage` propagates out of the plain `for` loop. -/
def replayLoop (cid : String) : Sys → List Event → Sys × Except String Unit
  | s, [] => (s, .ok ())
  | s, m :: rest =>
      let r := enqueueMessage s cid (Frame.event m)
      match r.2 with
      | .ok _ => replayLoop cid r.1 rest
      | .error e => (r.1, .error e)

/-- `PubSubSystem.subscribe`: require the topic, lazily create the record
bound to the supplied transport, add both cross-references, refresh stats,
then replay `slice(-lastN)` of the history when `lastN > 0` and the
history is non-empty. -/
def subscribe (s : Sys) (cid : String) (wsId : Nat) (topicName : String)
    (lastN : Nat) : Sys × Except String SubResult :=
  match s.topics topicName with
  | none => (s, .error "TOPIC_NOT_FOUND")
  | some t =>
      let reg :=
        match s.subscribers cid with
        | some sub => (sub, s)
        | none =>
            let fresh : Subscriber := { ws := wsId, topics := [], queue := [] }
            (fresh,
             { s with
                subscribers := upd s.subscribers cid (some fresh)
                totalSubscribers := s.totalSubscribers + 1 })
      let sub := reg.1
      let s1 := reg.2
      let t1 : Topic := { t with subscribers := sadd t.subscribers cid }
      let sub1 : Subscriber := { sub with topics := sadd sub.topics topicName }
      let s2 := { s1 with
                   topics := upd s1.topics topicName (some t1)
                   subscribers := upd s1.subscribers cid (some sub1) }
      let s3 :=
        match s2.topicStats topicName with
        | none => s2
        | some st =>
            { s2 with
              topicStats := upd s2.topicStats topicName (some (st.1, t1.subscribers.length)) }
      let rep :=
        if 0 < lastN ∧ 0 < t.messageHistory.length then
          replayLoop cid s3 (takeLast lastN t.messageHistory)
        else (s3, .ok ())
      (rep.1,
       match rep.2 with
       | .ok _ => .ok { topic := topicName, clientId := cid }
       | .error e => .error e)

/-- `PubSubSystem.unsubscribe`: throws `SUBSCRIPTION_NOT_FOUND` exactly
when the topic or the subscriber record is missing; otherwise deletes both
cross-references (each `Set.delete` a no-op when absent) and succeeds. -/
def unsubscribe (s : Sys) (cid : String) (topicName : String) :
    Sys × Except String SubResult :=
  match s.topics topicName, s.subscribers cid with
  | some t, some sub =>
      let t1 : Topic := { t with subscribers := sdel t.subscribers cid }
      let sub1 : Subscriber := { sub with topics := sdel sub.topics topicName }
      let s1 := { s with
                   topics := upd s.topics topicName (some t1)
                   subscribers := upd s.subscribers cid (some sub1) }
      let s2 :=
        match s1.topicStats topicName with
        | none => s1
        | some st =>
            { s1 with
              topicStats := upd s1.topicStats topicName (some (st.1, t1.subscribers.length)) }
      (s2, .ok { topic := topicName, clientId := cid })
  | _, _ => (s, .error "SUBSCRIPTION_NOT_FOUND")

/-- Result value of a successful `publish`. `subscribersReached` is an
`Int` because the JS expression `topic.subscribers.size -
failedDeliveries.length` can go negative. -/
structure PublishResult where
  topic : String
  subscribersReached : Int
  failedDeliveries : List (String × String)
deriving DecidableEq, Repr

/-- The fan-out loop of `publish`: enqueue to each snapshot subscriber,
catching per-subscriber errors into `failedDeliveries`. Iterating the
snapshot is faithful to the live JS `Set` iteration because each step
deletes at most the client it is currently visiting. -/
def fanOut (f : Frame) : Sys → List (String × String) → List String →
    Sys × List (String × String)
  | s, failed, [] => (s, failed)
  | s, failed, cid :: rest =>
      let r := enqueueMessage s cid f
      let failed1 :=
        match r.2 with
        | .ok _ => failed
        | .error e => failed ++ [(cid, e)]
      fanOut f r.1 failed1 rest

/-- `PubSubSystem.publish`: build the event, append it to the ring
(shifting the oldest past capacity), fan out, bump the counters, and
report `topic.subscribers.size - failedDeliveries.length` where the size
is read from the topic after fan-out. -/
def publish (s : Sys) (topicName message : String) (ts : Nat) :
    Sys × Except String PublishResult :=
  match s.topics topicName with
  | none => (s, .error "TOPIC_NOT_FOUND")
  | some t =>
      let ev : Event := { topic := topicName, message := message, ts := ts }
      let hist1 := t.messageHistory ++ [ev]
      let hist2 := if s.ringBufferSize < hist1.length then hist1.tail else hist1
      let s1 := { s with topics := upd s.topics topicName (some { t with messageHistory := hist2 }) }
      let fo := fanOut (Frame.event ev) s1 [] t.subscribers
      let s2 := { fo.1 with totalMessages := fo.1.totalMessages + 1 }
      let s3 :=
        match s2.topicStats topicName with
        | none => s2
        | some st =>
            { s2 with topicStats := upd s2.topicStats topicName (some (st.1 + 1, st.2)) }
      let curSize : Nat :=
        match s3.topics topicName with
        | some tFinal => tFinal.subscribers.length
        | none => 0
      (s3, .ok { topic := topicName
                 subscribersReached := (curSize : Int) - fo.2.length
                 failedDeliveries := fo.2 })

/-- `WebSocketHandler`'s `ws.on('close')` (and `'error'`) handler: it
removes the subscriber keyed by `ws.clientId`, the identifier the server
generated at connection time. -/
def handleClose (s : Sys) (wsClientId : String) : Sys :=
  removeSubscriber s wsClientId

/-- The error mapping in `WebSocketHandler.handleUnsubscribe`: a kernel
`SUBSCRIPTION_NOT_FOUND` surfaces to the client as `TOPIC_NOT_FOUND`. -/
def mapUnsubscribeError (e : String) : String :=
  if e = "SUBSCRIPTION_NOT_FOUND" then "TOPIC_NOT_FOUND" else "INTERNAL_ERROR"

/-- The operations that drive the kernel: the six registry operations plus
the two environment events (a fresh OPEN connection, a peer close). -/
inductive Op
  | createTopic (name : String)
  | deleteTopic (name : String)
  | subscribe (cid : String) (wsId : Nat) (topic : String) (lastN : Nat)
  | unsubscribe (cid : String) (topic : String)
  | publish (topic : String) (message : String) (ts : Nat)
  | removeSubscriber (cid : String)
  | openTransport (wsId : Nat) (sendOk : Bool)
  | closeTransport (wsId : Nat)

/-- One step of the kernel under an operation (results discarded). -/
def applyOp (s : Sys) : Op → Sys
  | .createTopic n => (createTopic s n).1
  | .deleteTopic n => (deleteTopic s n).1
  | .subscribe c w t n => (subscribe s c w t n).1
  | .unsubscribe c t => (unsubscribe s c t).1
  | .publish t m ts => (publish s t m ts).1
  | .removeSubscriber c => removeSubscriber s c
  | .openTransport w ok =>
      { s with transports := updT s.transports w { readyState := 1, sendOk := ok, sent := [] } }
  | .closeTransport w =>
      { s with transports := updT s.transports w (Transport.close (s.transports w)) }

/-- Run a sequence of operations. -/
def runOps (s : Sys) (ops : List Op) : Sys :=
  ops.foldl applyOp s

/-! ## Helper lemmas on the map, set, ring and drain primitives -/

theorem upd_same {α : Type} (m : String → Option α) (k : String) (v : Option α) :
    upd m k v k = v := by
  simp [upd]

theorem upd_other {α : Type} (m : String → Option α) {q k : String} (v : Option α)
    (h : q ≠ k) : upd m k v q = m q := by
  simp [upd, h]

theorem updT_same (m : Nat → Transport) (k : Nat) (v : Transport) :
    updT m k v k = v := by
  simp [updT]

theorem updT_other (m : Nat → Transport) {q k : Nat} (v : Transport)
    (h : q ≠ k) : updT m k v q = m q := by
  simp [updT, h]

theorem mem_sadd {xs : List String} {x y : String} :
    y ∈ sadd xs x ↔ y ∈ xs ∨ y = x := by
  unfold sadd
  split
  · rename_i hx
    constructor
    · exact Or.inl
    · rintro (h | rfl) <;> [exact h; exact hx]
  · simp

theorem mem_sadd_self (xs : List String) (x : String) : x ∈ sadd xs x := by
  simp [mem_sadd]

theorem sadd_nodup {xs : List String} {x : String} (h : xs.Nodup) :
    (sadd xs x).Nodup := by
  unfold sadd
  split
  · exact h
  · rename_i hx
    simpa [List.nodup_append, h] using hx

theorem mem_sdel {xs : List String} {x y : String} :
    y ∈ sdel xs x ↔ y ∈ xs ∧ y ≠ x := by
  simp [sdel, List.mem_filter]

theorem sdel_nodup {xs : List String} {x : String} (h : xs.Nodup) :
    (sdel xs x).Nodup :=
  h.filter _

theorem sdel_of_not_mem {xs : List String} {x : String} (h : x ∉ xs) :
    sdel xs x = xs := by
  apply List.filter_eq_self.mpr
  intro a ha
  simp
  rintro rfl
  exact h ha

theorem sdel_length {xs : List String} {x : String} (hn : xs.Nodup)
    (hm : x ∈ xs) : (sdel xs x).length + 1 = xs.length := by
  induction xs with
  | nil => cases hm
  | cons y ys ih =>
      rcases List.mem_cons.mp hm with rfl | hmem
      · have hx : x ∉ ys := (List.nodup_cons.mp hn).1
        simp [sdel, List.filter_cons]
        exact fun a ha hax => hx (hax ▸ ha)
      · have hne : y ≠ x := by
          rintro rfl
          exact (List.nodup_cons.mp hn).1 hmem
        have ih1 := ih (List.nodup_cons.mp hn).2 hmem
        simp only [sdel, List.filter_cons] at ih1 ⊢
        simp [hne] at ih1 ⊢
        omega

theorem takeLast_length {α : Type} (n : Nat) (xs : List α) :
    (takeLast n xs).length = min n xs.length := by
  simp [takeLast]
  omega

theorem takeLast_of_length_le {α : Type} {n : Nat} {xs : List α}
    (h : xs.length ≤ n) : takeLast n xs = xs := by
  simp [takeLast, Nat.sub_eq_zero_of_le h]

theorem takeLast_nil {α : Type} (n : Nat) : takeLast n ([] : List α) = [] := by
  simp [takeLast]

/-- The ring-buffer step of `publish` (append, shift past capacity) keeps
the history equal to the last `n` elements of the full publish stream. -/
theorem ringPush {α : Type} (n : Nat) (acc : List α) (e : α) :
    (if n < (takeLast n acc ++ [e]).length then (takeLast n acc ++ [e]).tail
     else takeLast n acc ++ [e]) = takeLast n (acc ++ [e]) := by
  have hlen : (takeLast n acc).length = min n acc.length := takeLast_length n acc
  by_cases hn : n ≤ acc.length
  · have hcond : n < (takeLast n acc ++ [e]).length := by
      simp [hlen]
      omega
    rw [if_pos hcond]
    rcases Nat.eq_zero_or_pos n with rfl | hpos
    · have h1 : takeLast 0 acc = [] := by
        simp [takeLast]
      have h2 : takeLast 0 (acc ++ [e]) = [] := by
        simp [takeLast]
      simp [h1, h2]
    · have hne : takeLast n acc ≠ [] := by
        intro hnil
        rw [hnil] at hlen
        simp at hlen
        omega
      rw [List.tail_append_of_ne_nil hne]
      show (takeLast n acc).tail ++ [e] = takeLast n (acc ++ [e])
      have ht : (takeLast n acc).tail = acc.drop (acc.length + 1 - n) := by
        rw [takeLast, ← List.drop_one, List.drop_drop]
        congr 1
        omega
      rw [ht, takeLast]
      have hle : acc.length + 1 - n ≤ acc.length := by omega
      rw [List.length_append, List.length_singleton,
        List.drop_append_of_le_length hle]
  · have hacc : takeLast n acc = acc := takeLast_of_length_le (by omega)
    have hcond : ¬ n < (takeLast n acc ++ [e]).length := by
      simp [hacc]
      omega
    rw [if_neg hcond, hacc, takeLast]
    have : acc.length + 1 - n = 0 := by omega
    rw [List.length_append, List.length_singleton, this, List.drop_zero]

theorem flushLoop_not_sendOk {t : Transport} (h : t.sendOk = false)
    (q : List Frame) : flushLoop t q = (t, q) := by
  cases q with
  | nil => rfl
  | cons f rest => simp [flushLoop, Transport.send, h]

theorem flushLoop_sendOk {t : Transport} (h : t.sendOk = true) (q : List Frame) :
    flushLoop t q = ({ t with sent := t.sent ++ q }, []) := by
  induction q generalizing t with
  | nil => simp [flushLoop]
  | cons f rest ih =>
      have step : flushLoop t (f :: rest) =
          flushLoop { t with sent := t.sent ++ [f] } rest := by
        simp [flushLoop, Transport.send, h]
      rw [step, ih (t := { t with sent := t.sent ++ [f] }) h]
      simp

theorem flushLoop_readyState (t : Transport) (q : List Frame) :
    (flushLoop t q).1.readyState = t.readyState := by
  cases h : t.sendOk
  · rw [flushLoop_not_sendOk h]
  · rw [flushLoop_sendOk h]

theorem flushLoop_length_le (t : Transport) (q : List Frame) :
    (flushLoop t q).2.length ≤ q.length := by
  cases h : t.sendOk
  · rw [flushLoop_not_sendOk h]
  · rw [flushLoop_sendOk h]
    simp

/-! ## Frame lemmas: the fields each internal step leaves untouched -/

/-- The three configuration fields, which no operation ever writes. -/
def SameCfg (s s1 : Sys) : Prop :=
  s1.maxQueueSize = s.maxQueueSize ∧ s1.ringBufferSize = s.ringBufferSize ∧
    s1.backpressurePolicy = s.backpressurePolicy

theorem sameCfg_rfl {s : Sys} : SameCfg s s :=
  ⟨rfl, rfl, rfl⟩

theorem sameCfg_trans {s1 s2 s3 : Sys} (h1 : SameCfg s1 s2) (h2 : SameCfg s2 s3) :
    SameCfg s1 s3 :=
  ⟨h2.1.trans h1.1, h2.2.1.trans h1.2.1, h2.2.2.trans h1.2.2⟩

theorem dropFromTopic_subscribers (cid tn : String) (s : Sys) :
    (dropFromTopic cid tn s).subscribers = s.subscribers := by
  cases h : s.topics tn
  · simp [dropFromTopic, h]
  · cases h2 : s.topicStats tn <;> simp [dropFromTopic, h, h2]

theorem dropFromTopic_transports (cid tn : String) (s : Sys) :
    (dropFromTopic cid tn s).transports = s.transports := by
  cases h : s.topics tn
  · simp [dropFromTopic, h]
  · cases h2 : s.topicStats tn <;> simp [dropFromTopic, h, h2]

theorem dropFromTopic_cfg (cid tn : String) (s : Sys) :
    SameCfg s (dropFromTopic cid tn s) := by
  cases h : s.topics tn
  · simp [dropFromTopic, h, SameCfg]
  · cases h2 : s.topicStats tn <;> simp [dropFromTopic, h, h2, SameCfg]

theorem dropFromTopic_topics_self (cid tn : String) (s : Sys) :
    (dropFromTopic cid tn s).topics tn =
      (s.topics tn).map (fun t => { t with subscribers := sdel t.subscribers cid }) := by
  cases h : s.topics tn
  · simp [dropFromTopic, h]
  · cases h2 : s.topicStats tn <;> simp [dropFromTopic, h, h2, upd_same]

theorem dropFromTopic_topics_other (cid : String) {tn q : String} (s : Sys)
    (h : q ≠ tn) :
    (dropFromTopic cid tn s).topics q = s.topics q := by
  cases ht : s.topics tn
  · simp [dropFromTopic, ht]
  · cases h2 : s.topicStats tn <;> simp [dropFromTopic, ht, h2, upd_other _ _ h]

theorem rst_subscribers (cid : String) (l : List String) (s : Sys) :
    (removeSubscriberTopics cid s l).subscribers = s.subscribers := by
  induction l generalizing s with
  | nil => rfl
  | cons tn rest ih =>
      rw [removeSubscriberTopics, ih, dropFromTopic_subscribers]

theorem rst_transports (cid : String) (l : List String) (s : Sys) :
    (removeSubscriberTopics cid s l).transports = s.transports := by
  induction l generalizing s with
  | nil => rfl
  | cons tn rest ih =>
      rw [removeSubscriberTopics, ih, dropFromTopic_transports]

theorem rst_cfg (cid : String) (l : List String) (s : Sys) :
    SameCfg s (removeSubscriberTopics cid s l) := by
  induction l generalizing s with
  | nil => exact sameCfg_rfl
  | cons tn rest ih =>
      rw [removeSubscriberTopics]
      exact sameCfg_trans (dropFromTopic_cfg cid tn s) (ih _)

theorem rst_topics_of_not_mem (cid : String) {l : List String} {q : String}
    (s : Sys) (h : q ∉ l) :
    (removeSubscriberTopics cid s l).topics q = s.topics q := by
  induction l generalizing s with
  | nil => rfl
  | cons tn rest ih =>
      simp only [List.mem_cons, not_or] at h
      rw [removeSubscriberTopics, ih _ h.2, dropFromTopic_topics_other cid _ h.1]

theorem rst_topics_of_mem (cid : String) {l : List String} {q : String}
    (s : Sys) (hnd : l.Nodup) (h : q ∈ l) :
    (removeSubscriberTopics cid s l).topics q =
      (s.topics q).map (fun t => { t with subscribers := sdel t.subscribers cid }) := by
  induction l generalizing s with
  | nil => cases h
  | cons tn rest ih =>
      rcases List.mem_cons.mp h with rfl | hmem
      · have hq : q ∉ rest := (List.nodup_cons.mp hnd).1
        rw [removeSubscriberTopics, rst_topics_of_not_mem cid _ hq,
          dropFromTopic_topics_self]
      · have hne : q ≠ tn := by
          rintro rfl
          exact (List.nodup_cons.mp hnd).1 hmem
        rw [removeSubscriberTopics, ih _ (List.nodup_cons.mp hnd).2 hmem,
          dropFromTopic_topics_other cid _ hne]

theorem removeSubscriber_transports (s : Sys) (cid : String) :
    (removeSubscriber s cid).transports = s.transports := by
  cases h : s.subscribers cid <;> simp [removeSubscriber, h, rst_transports]

theorem removeSubscriber_cfg (s : Sys) (cid : String) :
    SameCfg s (removeSubscriber s cid) := by
  cases h : s.subscribers cid
  · simp [removeSubscriber, h, sameCfg_rfl]
  · rename_i sub
    simp only [removeSubscriber, h]
    exact sameCfg_trans (rst_cfg cid sub.topics s) ⟨rfl, rfl, rfl⟩

theorem removeSubscriber_subscribers_self (s : Sys) (cid : String) :
    (removeSubscriber s cid).subscribers cid = none := by
  cases h : s.subscribers cid <;>
    simp [removeSubscriber, h, rst_subscribers, upd_same]

theorem removeSubscriber_subscribers_other (s : Sys) {cid c : String}
    (h : c ≠ cid) :
    (removeSubscriber s cid).subscribers c = s.subscribers c := by
  cases hs : s.subscribers cid
  · simp [removeSubscriber, hs]
  · simp [removeSubscriber, hs, rst_subscribers, upd_other _ _ h]

theorem flush_topics (s : Sys) (cid : String) :
    (flushSubscriberQueue s cid).topics = s.topics := by
  cases h : s.subscribers cid
  · simp [flushSubscriberQueue, h]
  · rename_i sub
    by_cases hws : (s.transports sub.ws).readyState ≠ 1 <;>
      simp [flushSubscriberQueue, h, hws]

theorem flush_cfg (s : Sys) (cid : String) :
    SameCfg s (flushSubscriberQueue s cid) := by
  cases h : s.subscribers cid
  · simp [flushSubscriberQueue, h, sameCfg_rfl]
  · rename_i sub
    by_cases hws : (s.transports sub.ws).readyState ≠ 1 <;>
      simp [flushSubscriberQueue, h, hws, sameCfg_rfl, SameCfg]

theorem flush_subscribers_other (s : Sys) {cid c : String} (h : c ≠ cid) :
    (flushSubscriberQueue s cid).subscribers c = s.subscribers c := by
  cases hs : s.subscribers cid
  · simp [flushSubscriberQueue, hs]
  · rename_i sub
    by_cases hws : (s.transports sub.ws).readyState ≠ 1 <;>
      simp [flushSubscriberQueue, hs, hws, upd_other _ _ h]

theorem flush_subscribers_self (s : Sys) {cid : String} {sub : Subscriber}
    (hs : s.subscribers cid = some sub) :
    ∃ q1, (flushSubscriberQueue s cid).subscribers cid =
        some { sub with queue := q1 } ∧ q1.length ≤ sub.queue.length := by
  by_cases hws : (s.transports sub.ws).readyState ≠ 1
  · exact ⟨sub.queue, by simp [flushSubscriberQueue, hs, hws], le_refl _⟩
  · refine ⟨(flushLoop (s.transports sub.ws) sub.queue).2, ?_, ?_⟩
    · simp [flushSubscriberQueue, hs, hws, upd_same]
    · exact flushLoop_length_le _ _

theorem flush_of_none {s : Sys} {cid : String} (hs : s.subscribers cid = none) :
    flushSubscriberQueue s cid = s := by
  simp [flushSubscriberQueue, hs]

theorem map_some_inv {t : Topic} {o : Option Topic} {f : Topic → Topic}
    (h : o.map f = some t) : ∃ t0, o = some t0 ∧ t = f t0 := by
  cases o <;> simp_all

theorem removeSubscriber_topics_none {s : Sys} {cid : String}
    (h : s.subscribers cid = none)
    (habs : ∀ tn t, s.topics tn = some t → cid ∉ t.subscribers) (tn : String) :
    (removeSubscriber s cid).topics tn =
      (s.topics tn).map (fun t => { t with subscribers := sdel t.subscribers cid }) := by
  simp only [removeSubscriber, h]
  cases ht : s.topics tn
  · simp
  · rename_i t
    simp [sdel_of_not_mem (habs tn t ht)]

theorem removeSubscriber_topics_some {s : Sys} {cid : String} {sub : Subscriber}
    (h : s.subscribers cid = some sub) (hnd : sub.topics.Nodup)
    (hcov : ∀ tn t, s.topics tn = some t → cid ∈ t.subscribers → tn ∈ sub.topics)
    (tn : String) :
    (removeSubscriber s cid).topics tn =
      (s.topics tn).map (fun t => { t with subscribers := sdel t.subscribers cid }) := by
  simp only [removeSubscriber, h]
  by_cases hm : tn ∈ sub.topics
  · exact rst_topics_of_mem cid s hnd hm
  · rw [show (({ removeSubscriberTopics cid s sub.topics with
        subscribers := upd (removeSubscriberTopics cid s sub.topics).subscribers cid none
        totalSubscribers := (removeSubscriberTopics cid s sub.topics).totalSubscribers - 1 } : Sys).topics tn)
        = (removeSubscriberTopics cid s sub.topics).topics tn from rfl,
      rst_topics_of_not_mem cid s hm]
    cases ht : s.topics tn
    · simp
    · rename_i t
      have hno : cid ∉ t.subscribers := fun hc => hm (hcov tn t ht hc)
      simp [sdel_of_not_mem hno]

/-! ## The registry invariant -/

/-- The registry invariant: positive queue capacity, duplicate-free sets,
bidirectional membership with live records (I1/I2) and the queue bound
(I4). -/
structure Inv (s : Sys) : Prop where
  maxPos : 0 < s.maxQueueSize
  topicNodup : ∀ tn t, s.topics tn = some t → t.subscribers.Nodup
  topicSub : ∀ tn t cid, s.topics tn = some t → cid ∈ t.subscribers →
      ∃ sub, s.subscribers cid = some sub ∧ tn ∈ sub.topics
  subNodup : ∀ cid sub, s.subscribers cid = some sub → sub.topics.Nodup
  queueBound : ∀ cid sub, s.subscribers cid = some sub →
      sub.queue.length ≤ s.maxQueueSize
  subTopic : ∀ cid sub tn, s.subscribers cid = some sub → tn ∈ sub.topics →
      ∃ t, s.topics tn = some t ∧ cid ∈ t.subscribers

/-- The invariant does not look at stats, counters or transports. -/
theorem Inv_of_eq {s s1 : Sys} (h : Inv s) (h1 : s1.topics = s.topics)
    (h2 : s1.subscribers = s.subscribers)
    (h3 : s1.maxQueueSize = s.maxQueueSize) : Inv s1 := by
  constructor
  · rw [h3]; exact h.maxPos
  · rw [h1]; exact h.topicNodup
  · rw [h1, h2]; exact h.topicSub
  · rw [h2]; exact h.subNodup
  · rw [h2, h3]; exact h.queueBound
  · rw [h1, h2]; exact h.subTopic

theorem Inv_flush {s : Sys} (h : Inv s) (cid : String) :
    Inv (flushSubscriberQueue s cid) := by
  cases hs : s.subscribers cid with
  | none => rw [flush_of_none hs]; exact h
  | some sub =>
      obtain ⟨q1, hself, hle⟩ := flush_subscribers_self s hs
      constructor
      · rw [(flush_cfg s cid).1]; exact h.maxPos
      · intro tn t ht
        rw [flush_topics] at ht
        exact h.topicNodup tn t ht
      · intro tn t c ht hc
        rw [flush_topics] at ht
        obtain ⟨sub1, hsub1, htn⟩ := h.topicSub tn t c ht hc
        by_cases hcc : c = cid
        · subst hcc
          rw [hs] at hsub1
          cases hsub1
          exact ⟨_, hself, htn⟩
        · exact ⟨sub1, by rw [flush_subscribers_other s hcc]; exact hsub1, htn⟩
      · intro c sub1 hc
        by_cases hcc : c = cid
        · subst hcc
          rw [hself] at hc
          cases hc
          exact h.subNodup _ sub hs
        · rw [flush_subscribers_other s hcc] at hc
          exact h.subNodup c sub1 hc
      · intro c sub1 hc
        rw [(flush_cfg s cid).1]
        by_cases hcc : c = cid
        · subst hcc
          rw [hself] at hc
          cases hc
          exact le_trans hle (h.queueBound _ sub hs)
        · rw [flush_subscribers_other s hcc] at hc
          exact h.queueBound c sub1 hc
      · intro c sub1 tn hc htn
        rw [flush_topics]
        by_cases hcc : c = cid
        · subst hcc
          rw [hself] at hc
          cases hc
          exact h.subTopic _ sub tn hs htn
        · rw [flush_subscribers_other s hcc] at hc
          exact h.subTopic c sub1 tn hc htn

/-- Under the invariant `removeSubscriber` acts uniformly on every topic:
the client vanishes from every subscriber set. -/
theorem removeSubscriber_topics {s : Sys} (h : Inv s) (cid : String) (tn : String) :
    (removeSubscriber s cid).topics tn =
      (s.topics tn).map (fun t => { t with subscribers := sdel t.subscribers cid }) := by
  cases hs : s.subscribers cid with
  | none =>
      apply removeSubscriber_topics_none hs
      intro tn1 t1 ht1 hc
      obtain ⟨sub1, hsub1, _⟩ := h.topicSub tn1 t1 cid ht1 hc
      rw [hs] at hsub1
      cases hsub1
  | some sub =>
      apply removeSubscriber_topics_some hs (h.subNodup cid sub hs)
      intro tn1 t1 ht1 hc
      obtain ⟨sub1, hsub1, htn1⟩ := h.topicSub tn1 t1 cid ht1 hc
      rw [hs] at hsub1
      cases hsub1
      exact htn1

theorem Inv_removeSubscriber {s : Sys} (h : Inv s) (cid : String) :
    Inv (removeSubscriber s cid) := by
  constructor
  · rw [(removeSubscriber_cfg s cid).1]; exact h.maxPos
  · intro tn t ht
    rw [removeSubscriber_topics h cid tn] at ht
    obtain ⟨t0, _, rfl⟩ := map_some_inv ht
    exact sdel_nodup (h.topicNodup tn t0 (by assumption))
  · intro tn t c ht hc
    rw [removeSubscriber_topics h cid tn] at ht
    obtain ⟨t0, ht0, rfl⟩ := map_some_inv ht
    obtain ⟨hc0, hne⟩ := mem_sdel.mp hc
    obtain ⟨sub1, hsub1, htn1⟩ := h.topicSub tn t0 c ht0 hc0
    refine ⟨sub1, ?_, htn1⟩
    rw [removeSubscriber_subscribers_other s hne]
    exact hsub1
  · intro c sub1 hc
    by_cases hcc : c = cid
    · subst hcc
      rw [removeSubscriber_subscribers_self] at hc
      cases hc
    · rw [removeSubscriber_subscribers_other s hcc] at hc
      exact h.subNodup c sub1 hc
  · intro c sub1 hc
    rw [(removeSubscriber_cfg s cid).1]
    by_cases hcc : c = cid
    · subst hcc
      rw [removeSubscriber_subscribers_self] at hc
      cases hc
    · rw [removeSubscriber_subscribers_other s hcc] at hc
      exact h.queueBound c sub1 hc
  · intro c sub1 tn hc htn
    by_cases hcc : c = cid
    · subst hcc
      rw [removeSubscriber_subscribers_self] at hc
      cases hc
    · rw [removeSubscriber_subscribers_other s hcc] at hc
      obtain ⟨t, ht, hmem⟩ := h.subTopic c sub1 tn hc htn
      refine ⟨_, by rw [removeSubscriber_topics h cid tn, ht]; rfl, ?_⟩
      exact mem_sdel.mpr ⟨hmem, hcc⟩

/-- Replacing only the transport table keeps the invariant. -/
theorem Inv_setTransports {s : Sys} (h : Inv s) (tr : Nat → Transport) :
    Inv { s with transports := tr } :=
  Inv_of_eq h rfl rfl rfl

/-- Replacing one subscriber's queue by one within bound keeps the
invariant. -/
theorem Inv_setQueue {s : Sys} {cid : String} {sub : Subscriber}
    (h : Inv s) (hs : s.subscribers cid = some sub) {q : List Frame}
    (hq : q.length ≤ s.maxQueueSize) :
    Inv { s with subscribers := upd s.subscribers cid (some { sub with queue := q }) } := by
  constructor
  · exact h.maxPos
  · exact h.topicNodup
  · intro tn t c ht hc
    obtain ⟨sub1, hsub1, htn⟩ := h.topicSub tn t c ht hc
    by_cases hcc : c = cid
    · subst hcc
      rw [hs] at hsub1
      cases hsub1
      refine ⟨{ sub with queue := q }, ?_, htn⟩
      show upd s.subscribers c (some { sub with queue := q }) c = _
      rw [upd_same]
    · refine ⟨sub1, ?_, htn⟩
      show upd s.subscribers cid (some { sub with queue := q }) c = _
      rw [upd_other _ _ hcc]
      exact hsub1
  · intro c sub1 hc
    by_cases hcc : c = cid
    · subst hcc
      rw [show ({ s with subscribers := upd s.subscribers c (some { sub with queue := q }) } : Sys).subscribers c = upd s.subscribers c (some { sub with queue := q }) c from rfl, upd_same] at hc
      cases hc
      exact h.subNodup _ sub hs
    · rw [show ({ s with subscribers := upd s.subscribers cid (some { sub with queue := q }) } : Sys).subscribers c = upd s.subscribers cid (some { sub with queue := q }) c from rfl, upd_other _ _ hcc] at hc
      exact h.subNodup c sub1 hc
  · intro c sub1 hc
    by_cases hcc : c = cid
    · subst hcc
      rw [show ({ s with subscribers := upd s.subscribers c (some { sub with queue := q }) } : Sys).subscribers c = upd s.subscribers c (some { sub with queue := q }) c from rfl, upd_same] at hc
      cases hc
      exact hq
    · rw [show ({ s with subscribers := upd s.subscribers cid (some { sub with queue := q }) } : Sys).subscribers c = upd s.subscribers cid (some { sub with queue := q }) c from rfl, upd_other _ _ hcc] at hc
      exact h.queueBound c sub1 hc
  · intro c sub1 tn hc htn
    by_cases hcc : c = cid
    · subst hcc
      rw [show ({ s with subscribers := upd s.subscribers c (some { sub with queue := q }) } : Sys).subscribers c = upd s.subscribers c (some { sub with queue := q }) c from rfl, upd_same] at hc
      cases hc
      exact h.subTopic _ sub tn hs htn
    · rw [show ({ s with subscribers := upd s.subscribers cid (some { sub with queue := q }) } : Sys).subscribers c = upd s.subscribers cid (some { sub with queue := q }) c from rfl, upd_other _ _ hcc] at hc
      exact h.subTopic c sub1 tn hc htn

/-! Characterizations of the five branches of `enqueueMessage`. -/

theorem enqueue_no_sub {s : Sys} {cid : String} (f : Frame)
    (hs : s.subscribers cid = none) :
    enqueueMessage s cid f = (s, .error "SUBSCRIBER_NOT_FOUND") := by
  simp [enqueueMessage, hs]

theorem enqueue_closed {s : Sys} {cid : String} {sub : Subscriber} (f : Frame)
    (hs : s.subscribers cid = some sub)
    (hws : (s.transports sub.ws).readyState ≠ 1) :
    enqueueMessage s cid f = (removeSubscriber s cid, .error "SUBSCRIBER_DISCONNECTED") := by
  simp only [enqueueMessage, hs]
  rw [if_pos hws]

theorem enqueue_dropOldest {s : Sys} {cid : String} {sub : Subscriber} (f : Frame)
    (hs : s.subscribers cid = some sub)
    (hws : (s.transports sub.ws).readyState = 1)
    (hq : s.maxQueueSize ≤ sub.queue.length)
    (hp : s.backpressurePolicy = .dropOldest) :
    enqueueMessage s cid f =
      (flushSubscriberQueue
        { s with subscribers := upd s.subscribers cid (some { sub with queue := sub.queue.tail ++ [f] }) }
        cid, .ok ()) := by
  simp only [enqueueMessage, hs]
  rw [if_neg (fun hne => hne hws), if_pos hq, hp]

theorem enqueue_disconnect {s : Sys} {cid : String} {sub : Subscriber} (f : Frame)
    (hs : s.subscribers cid = some sub)
    (hws : (s.transports sub.ws).readyState = 1)
    (hq : s.maxQueueSize ≤ sub.queue.length)
    (hp : s.backpressurePolicy = .disconnect) :
    enqueueMessage s cid f =
      (removeSubscriber
        { s with transports := (updT s.transports sub.ws
            (if (s.transports sub.ws).sendOk then
              Transport.close
                { (s.transports sub.ws) with
                  sent := (s.transports sub.ws).sent ++ [Frame.error "SLOW_CONSUMER"] }
             else s.transports sub.ws)) }
        cid, .error "SLOW_CONSUMER") := by
  simp only [enqueueMessage, hs]
  rw [if_neg (fun hne => hne hws), if_pos hq, hp]

theorem enqueue_push {s : Sys} {cid : String} {sub : Subscriber} (f : Frame)
    (hs : s.subscribers cid = some sub)
    (hws : (s.transports sub.ws).readyState = 1)
    (hq : sub.queue.length < s.maxQueueSize) :
    enqueueMessage s cid f =
      (flushSubscriberQueue
        { s with subscribers := upd s.subscribers cid (some { sub with queue := sub.queue ++ [f] }) }
        cid, .ok ()) := by
  simp only [enqueueMessage, hs]
  rw [if_neg (fun hne => hne hws), if_neg (Nat.not_le.mpr hq)]

theorem Inv_enqueue {s : Sys} (h : Inv s) (cid : String) (f : Frame) :
    Inv (enqueueMessage s cid f).1 := by
  cases hs : s.subscribers cid with
  | none => rw [enqueue_no_sub f hs]; exact h
  | some sub =>
      by_cases hws : (s.transports sub.ws).readyState = 1
      · by_cases hq : s.maxQueueSize ≤ sub.queue.length
        · cases hp : s.backpressurePolicy with
          | dropOldest =>
              rw [enqueue_dropOldest f hs hws hq hp]
              apply Inv_flush
              apply Inv_setQueue h hs
              have hb := h.queueBound cid sub hs
              have hpos : 0 < sub.queue.length := lt_of_lt_of_le h.maxPos hq
              simp [List.length_tail]
              omega
          | disconnect =>
              rw [enqueue_disconnect f hs hws hq hp]
              apply Inv_removeSubscriber
              exact Inv_setTransports h _
        · rw [enqueue_push f hs hws (Nat.not_le.mp hq)]
          apply Inv_flush
          apply Inv_setQueue h hs
          have hb := h.queueBound cid sub hs
          simp
          omega
      · rw [enqueue_closed f hs hws]
        exact Inv_removeSubscriber h cid

theorem Inv_replayLoop {cid : String} :
    ∀ (l : List Event) {s : Sys}, Inv s → Inv (replayLoop cid s l).1 := by
  intro l
  induction l with
  | nil => intro s h; exact h
  | cons m rest ih =>
      intro s h
      rw [replayLoop]
      cases hr : (enqueueMessage s cid (Frame.event m)).2
      · simp only [hr]
        exact Inv_enqueue h cid (Frame.event m)
      · simp only [hr]
        exact ih (Inv_enqueue h cid (Frame.event m))

theorem Inv_fanOut {f : Frame} :
    ∀ (l : List String) {s : Sys} (failed : List (String × String)),
      Inv s → Inv (fanOut f s failed l).1 := by
  intro l
  induction l with
  | nil => intro s failed h; exact h
  | cons cid rest ih =>
      intro s failed h
      rw [fanOut]
      exact ih _ (Inv_enqueue h cid f)

/-! ## Invariant preservation by each registry operation -/

theorem Inv_statsStep {s2 : Sys} (h2 : Inv s2) (tn : String)
    (f : Nat × Nat → Nat × Nat) :
    Inv (match s2.topicStats tn with
         | none => s2
         | some st => { s2 with topicStats := upd s2.topicStats tn (some (f st)) }) := by
  cases h : s2.topicStats tn
  · exact h2
  · exact Inv_of_eq h2 rfl rfl rfl

theorem Inv_setHistory {s : Sys} {tn : String} {t : Topic} (h : Inv s)
    (ht : s.topics tn = some t) (hist : List Event) :
    Inv { s with topics := upd s.topics tn (some { t with messageHistory := hist }) } := by
  have hat : ∀ q, upd s.topics tn (some { t with messageHistory := hist }) q =
      if q = tn then some { t with messageHistory := hist } else s.topics q := by
    intro q
    by_cases hq : q = tn
    · subst hq; rw [upd_same, if_pos rfl]
    · rw [upd_other _ _ hq, if_neg hq]
  constructor
  · exact h.maxPos
  · intro q tq hq
    rw [show ({ s with topics := upd s.topics tn (some { t with messageHistory := hist }) } : Sys).topics q = upd s.topics tn (some { t with messageHistory := hist }) q from rfl, hat q] at hq
    by_cases hqt : q = tn
    · rw [if_pos hqt] at hq
      cases hq
      exact h.topicNodup tn t (hqt ▸ ht)
    · rw [if_neg hqt] at hq
      exact h.topicNodup q tq hq
  · intro q tq c hq hc
    rw [show ({ s with topics := upd s.topics tn (some { t with messageHistory := hist }) } : Sys).topics q = upd s.topics tn (some { t with messageHistory := hist }) q from rfl, hat q] at hq
    by_cases hqt : q = tn
    · rw [if_pos hqt] at hq
      cases hq
      subst hqt
      exact h.topicSub q t c ht hc
    · rw [if_neg hqt] at hq
      exact h.topicSub q tq c hq hc
  · exact h.subNodup
  · exact h.queueBound
  · intro c sub q hc hq
    obtain ⟨tq, htq, hmem⟩ := h.subTopic c sub q hc hq
    by_cases hqt : q = tn
    · subst hqt
      rw [ht] at htq
      cases htq
      refine ⟨{ t with messageHistory := hist }, ?_, hmem⟩
      show upd s.topics q (some { t with messageHistory := hist }) q = _
      rw [upd_same]
    · refine ⟨tq, ?_, hmem⟩
      show upd s.topics tn (some { t with messageHistory := hist }) q = some tq
      rw [upd_other _ _ hqt]
      exact htq

theorem Inv_createTopic {s : Sys} (h : Inv s) (name : String) :
    Inv (createTopic s name).1 := by
  cases ht : s.topics name with
  | some t => simp only [createTopic, ht]; exact h
  | none =>
      simp only [createTopic, ht]
      constructor
      · exact h.maxPos
      · intro q tq hq
        by_cases hqn : q = name
        · subst hqn
          rw [show ∀ (x : Sys), x.topics = x.topics from fun _ => rfl] at hq
          rw [show ({ s with topics := upd s.topics q (some { subscribers := [], messageHistory := [] }), topicStats := upd s.topicStats q (some (0, 0)) } : Sys).topics q = upd s.topics q (some { subscribers := [], messageHistory := [] }) q from rfl, upd_same] at hq
          cases hq
          exact List.nodup_nil
        · rw [show ({ s with topics := upd s.topics name (some { subscribers := [], messageHistory := [] }), topicStats := upd s.topicStats name (some (0, 0)) } : Sys).topics q = upd s.topics name (some { subscribers := [], messageHistory := [] }) q from rfl, upd_other _ _ hqn] at hq
          exact h.topicNodup q tq hq
      · intro q tq c hq hc
        by_cases hqn : q = name
        · subst hqn
          rw [show ({ s with topics := upd s.topics q (some { subscribers := [], messageHistory := [] }), topicStats := upd s.topicStats q (some (0, 0)) } : Sys).topics q = upd s.topics q (some { subscribers := [], messageHistory := [] }) q from rfl, upd_same] at hq
          cases hq
          cases hc
        · rw [show ({ s with topics := upd s.topics name (some { subscribers := [], messageHistory := [] }), topicStats := upd s.topicStats name (some (0, 0)) } : Sys).topics q = upd s.topics name (some { subscribers := [], messageHistory := [] }) q from rfl, upd_other _ _ hqn] at hq
          exact h.topicSub q tq c hq hc
      · exact h.subNodup
      · exact h.queueBound
      · intro c sub q hc hq
        obtain ⟨tq, htq, hmem⟩ := h.subTopic c sub q hc hq
        have hqn : q ≠ name := by
          rintro rfl
          rw [ht] at htq
          cases htq
        refine ⟨tq, ?_, hmem⟩
        show upd s.topics name (some { subscribers := [], messageHistory := [] }) q = some tq
        rw [upd_other _ _ hqn]
        exact htq

theorem notifyStep_topics (tn cid : String) (s : Sys) :
    (notifyStep tn cid s).topics = s.topics := by
  cases h : s.subscribers cid
  · simp [notifyStep, h]
  · rename_i sub
    by_cases hws : (s.transports sub.ws).readyState = 1 <;> simp [notifyStep, h, hws]

theorem notifyStep_subscribers (tn cid : String) (s : Sys) :
    (notifyStep tn cid s).subscribers = s.subscribers := by
  cases h : s.subscribers cid
  · simp [notifyStep, h]
  · rename_i sub
    by_cases hws : (s.transports sub.ws).readyState = 1 <;> simp [notifyStep, h, hws]

theorem notifyStep_cfg (tn cid : String) (s : Sys) :
    SameCfg s (notifyStep tn cid s) := by
  cases h : s.subscribers cid
  · simp [notifyStep, h, sameCfg_rfl]
  · rename_i sub
    by_cases hws : (s.transports sub.ws).readyState = 1 <;>
      simp [notifyStep, h, hws, sameCfg_rfl, SameCfg]

theorem notifyLoop_topics (tn : String) (l : List String) (s : Sys) :
    (notifyLoop tn s l).topics = s.topics := by
  induction l generalizing s with
  | nil => rfl
  | cons c rest ih => rw [notifyLoop, ih, notifyStep_topics]

theorem notifyLoop_subscribers (tn : String) (l : List String) (s : Sys) :
    (notifyLoop tn s l).subscribers = s.subscribers := by
  induction l generalizing s with
  | nil => rfl
  | cons c rest ih => rw [notifyLoop, ih, notifyStep_subscribers]

theorem notifyLoop_cfg (tn : String) (l : List String) (s : Sys) :
    SameCfg s (notifyLoop tn s l) := by
  induction l generalizing s with
  | nil => exact sameCfg_rfl
  | cons c rest ih =>
      rw [notifyLoop]
      exact sameCfg_trans (notifyStep_cfg tn c s) (ih _)

theorem detachStep_topics (tn cid : String) (s : Sys) :
    (detachStep tn cid s).topics = s.topics := by
  cases h : s.subscribers cid <;> simp [detachStep, h]

theorem detachStep_cfg (tn cid : String) (s : Sys) :
    SameCfg s (detachStep tn cid s) := by
  cases h : s.subscribers cid <;> simp [detachStep, h, sameCfg_rfl, SameCfg]

theorem detachStep_subscribers_self (tn cid : String) (s : Sys) :
    (detachStep tn cid s).subscribers cid =
      (s.subscribers cid).map (fun sub => { sub with topics := sdel sub.topics tn }) := by
  cases h : s.subscribers cid
  · simp [detachStep, h]
  · simp [detachStep, h, upd_same]

theorem detachStep_subscribers_other (tn : String) {cid c : String} (s : Sys)
    (hne : c ≠ cid) :
    (detachStep tn cid s).subscribers c = s.subscribers c := by
  cases h : s.subscribers cid
  · simp [detachStep, h]
  · simp [detachStep, h, upd_other _ _ hne]

theorem detachLoop_topics (tn : String) (l : List String) (s : Sys) :
    (detachLoop tn s l).topics = s.topics := by
  induction l generalizing s with
  | nil => rfl
  | cons c rest ih => rw [detachLoop, ih, detachStep_topics]

theorem detachLoop_cfg (tn : String) (l : List String) (s : Sys) :
    SameCfg s (detachLoop tn s l) := by
  induction l generalizing s with
  | nil => exact sameCfg_rfl
  | cons c rest ih =>
      rw [detachLoop]
      exact sameCfg_trans (detachStep_cfg tn c s) (ih _)

theorem detachLoop_subscribers_of_not_mem (tn : String) {l : List String}
    {c : String} (s : Sys) (h : c ∉ l) :
    (detachLoop tn s l).subscribers c = s.subscribers c := by
  induction l generalizing s with
  | nil => rfl
  | cons c0 rest ih =>
      simp only [List.mem_cons, not_or] at h
      rw [detachLoop, ih _ h.2, detachStep_subscribers_other tn _ h.1]

theorem detachLoop_subscribers_of_mem (tn : String) {l : List String}
    {c : String} (s : Sys) (hnd : l.Nodup) (h : c ∈ l) :
    (detachLoop tn s l).subscribers c =
      (s.subscribers c).map (fun sub => { sub with topics := sdel sub.topics tn }) := by
  induction l generalizing s with
  | nil => cases h
  | cons c0 rest ih =>
      rcases List.mem_cons.mp h with rfl | hmem
      · have hc : c ∉ rest := (List.nodup_cons.mp hnd).1
        rw [detachLoop, detachLoop_subscribers_of_not_mem tn _ hc,
          detachStep_subscribers_self]
      · have hne : c ≠ c0 := by
          rintro rfl
          exact (List.nodup_cons.mp hnd).1 hmem
        rw [detachLoop, ih _ (List.nodup_cons.mp hnd).2 hmem,
          detachStep_subscribers_other tn _ hne]

theorem Inv_deleteTopic {s : Sys} (h : Inv s) (name : String) :
    Inv (deleteTopic s name).1 := by
  cases ht : s.topics name with
  | none => simp only [deleteTopic, ht]; exact h
  | some t =>
      simp only [deleteTopic, ht]
      have hnd : t.subscribers.Nodup := h.topicNodup name t ht
      have h1top := notifyLoop_topics name t.subscribers s
      have h1sub := notifyLoop_subscribers name t.subscribers s
      have h1cfg := notifyLoop_cfg name t.subscribers s
      have h2top := detachLoop_topics name t.subscribers (notifyLoop name s t.subscribers)
      have h2cfg := detachLoop_cfg name t.subscribers (notifyLoop name s t.subscribers)
      have etop : ∀ q, ({ detachLoop name (notifyLoop name s t.subscribers) t.subscribers with topics := upd (detachLoop name (notifyLoop name s t.subscribers) t.subscribers).topics name none, topicStats := upd (detachLoop name (notifyLoop name s t.subscribers) t.subscribers).topicStats name none } : Sys).topics q = upd (detachLoop name (notifyLoop name s t.subscribers) t.subscribers).topics name none q :=
        fun _ => rfl
      have esub : ∀ c, ({ detachLoop name (notifyLoop name s t.subscribers) t.subscribers with topics := upd (detachLoop name (notifyLoop name s t.subscribers) t.subscribers).topics name none, topicStats := upd (detachLoop name (notifyLoop name s t.subscribers) t.subscribers).topicStats name none } : Sys).subscribers c = (detachLoop name (notifyLoop name s t.subscribers) t.subscribers).subscribers c :=
        fun _ => rfl
      have emax : ({ detachLoop name (notifyLoop name s t.subscribers) t.subscribers with topics := upd (detachLoop name (notifyLoop name s t.subscribers) t.subscribers).topics name none, topicStats := upd (detachLoop name (notifyLoop name s t.subscribers) t.subscribers).topicStats name none } : Sys).maxQueueSize = s.maxQueueSize := by
        show (detachLoop name (notifyLoop name s t.subscribers) t.subscribers).maxQueueSize = s.maxQueueSize
        rw [h2cfg.1, h1cfg.1]
      have h2subm : ∀ c, c ∈ t.subscribers →
          (detachLoop name (notifyLoop name s t.subscribers) t.subscribers).subscribers c =
            (s.subscribers c).map (fun sub => { sub with topics := sdel sub.topics name }) := by
        intro c hc
        rw [detachLoop_subscribers_of_mem name _ hnd hc, h1sub]
      have h2subo : ∀ c, c ∉ t.subscribers →
          (detachLoop name (notifyLoop name s t.subscribers) t.subscribers).subscribers c =
            s.subscribers c := by
        intro c hc
        rw [detachLoop_subscribers_of_not_mem name _ hc, h1sub]
      have hget : ∀ c sub1, (detachLoop name (notifyLoop name s t.subscribers) t.subscribers).subscribers c = some sub1 →
          (∃ sub0, s.subscribers c = some sub0 ∧ c ∈ t.subscribers ∧
            sub1 = { sub0 with topics := sdel sub0.topics name }) ∨
          (s.subscribers c = some sub1 ∧ c ∉ t.subscribers) := by
        intro c sub1 hc
        by_cases hmem : c ∈ t.subscribers
        · left
          rw [h2subm c hmem] at hc
          cases hx : s.subscribers c <;> rw [hx] at hc
          · cases hc
          · rename_i sub0
            refine ⟨sub0, rfl, hmem, ?_⟩
            simpa using hc.symm
        · right
          rw [h2subo c hmem] at hc
          exact ⟨hc, hmem⟩
      constructor
      · rw [emax]; exact h.maxPos
      · intro q tq hq
        rw [etop q] at hq
        by_cases hqn : q = name
        · rw [hqn, upd_same] at hq
          cases hq
        · rw [upd_other _ _ hqn, h2top, h1top] at hq
          exact h.topicNodup q tq hq
      · intro q tq c hq hc
        rw [etop q] at hq
        by_cases hqn : q = name
        · rw [hqn, upd_same] at hq
          cases hq
        · rw [upd_other _ _ hqn, h2top, h1top] at hq
          obtain ⟨sub1, hsub1, htn1⟩ := h.topicSub q tq c hq hc
          by_cases hmem : c ∈ t.subscribers
          · refine ⟨{ sub1 with topics := sdel sub1.topics name }, ?_, ?_⟩
            · rw [esub c, h2subm c hmem, hsub1]
              rfl
            · exact mem_sdel.mpr ⟨htn1, hqn⟩
          · refine ⟨sub1, ?_, htn1⟩
            rw [esub c, h2subo c hmem]
            exact hsub1
      · intro c sub1 hc
        rw [esub c] at hc
        rcases hget c sub1 hc with ⟨sub0, hsub0, _, rfl⟩ | ⟨hsub0, _⟩
        · exact sdel_nodup (h.subNodup c sub0 hsub0)
        · exact h.subNodup c sub1 hsub0
      · intro c sub1 hc
        rw [emax, esub c] at *
        rw [esub c] at hc
        rcases hget c sub1 hc with ⟨sub0, hsub0, _, rfl⟩ | ⟨hsub0, _⟩
        · exact h.queueBound c sub0 hsub0
        · exact h.queueBound c sub1 hsub0
      · intro c sub1 q hc hq
        rw [esub c] at hc
        rcases hget c sub1 hc with ⟨sub0, hsub0, _, rfl⟩ | ⟨hsub0, hnm⟩
        · have hq1 : q ∈ sdel sub0.topics name := hq
          obtain ⟨hq0, hqn⟩ := mem_sdel.mp hq1
          obtain ⟨tq, htq, hcm⟩ := h.subTopic c sub0 q hsub0 hq0
          refine ⟨tq, ?_, hcm⟩
          rw [etop q, upd_other _ _ hqn, h2top, h1top]
          exact htq
        · obtain ⟨tq, htq, hcm⟩ := h.subTopic c sub1 q hsub0 hq
          have hqn : q ≠ name := by
            intro he
            rw [he, ht] at htq
            cases htq
            exact hnm hcm
          refine ⟨tq, ?_, hcm⟩
          rw [etop q, upd_other _ _ hqn, h2top, h1top]
          exact htq

theorem Inv_unsubscribe {s : Sys} (h : Inv s) (cid topicName : String) :
    Inv (unsubscribe s cid topicName).1 := by
  cases ht : s.topics topicName with
  | none => simp only [unsubscribe, ht]; exact h
  | some t =>
      cases hs : s.subscribers cid with
      | none => simp only [unsubscribe, ht, hs]; exact h
      | some sub =>
          simp only [unsubscribe, ht, hs]
          have hmid : Inv ({ s with
              topics := upd s.topics topicName (some { t with subscribers := sdel t.subscribers cid })
              subscribers := upd s.subscribers cid (some { sub with topics := sdel sub.topics topicName }) } : Sys) := by
            have etop : ∀ q, ({ s with
                topics := upd s.topics topicName (some { t with subscribers := sdel t.subscribers cid })
                subscribers := upd s.subscribers cid (some { sub with topics := sdel sub.topics topicName }) } : Sys).topics q = upd s.topics topicName (some { t with subscribers := sdel t.subscribers cid }) q :=
              fun _ => rfl
            have esub : ∀ c, ({ s with
                topics := upd s.topics topicName (some { t with subscribers := sdel t.subscribers cid })
                subscribers := upd s.subscribers cid (some { sub with topics := sdel sub.topics topicName }) } : Sys).subscribers c = upd s.subscribers cid (some { sub with topics := sdel sub.topics topicName }) c :=
              fun _ => rfl
            constructor
            · exact h.maxPos
            · intro q tq hq
              rw [etop q] at hq
              by_cases hqn : q = topicName
              · rw [hqn, upd_same] at hq
                cases hq
                exact sdel_nodup (h.topicNodup topicName t ht)
              · rw [upd_other _ _ hqn] at hq
                exact h.topicNodup q tq hq
            · intro q tq c hq hc
              rw [etop q] at hq
              by_cases hqn : q = topicName
              · rw [hqn, upd_same] at hq
                cases hq
                obtain ⟨hct, hcc⟩ := mem_sdel.mp hc
                obtain ⟨sub1, hsub1, htn1⟩ := h.topicSub topicName t c (hqn ▸ ht) hct
                refine ⟨sub1, ?_, ?_⟩
                · rw [esub c, upd_other _ _ hcc]
                  exact hsub1
                · exact hqn ▸ htn1
              · rw [upd_other _ _ hqn] at hq
                obtain ⟨sub1, hsub1, htn1⟩ := h.topicSub q tq c hq hc
                by_cases hcc : c = cid
                · subst hcc
                  rw [hs] at hsub1
                  cases hsub1
                  refine ⟨{ sub with topics := sdel sub.topics topicName }, ?_, ?_⟩
                  · rw [esub c, upd_same]
                  · exact mem_sdel.mpr ⟨htn1, hqn⟩
                · refine ⟨sub1, ?_, htn1⟩
                  rw [esub c, upd_other _ _ hcc]
                  exact hsub1
            · intro c sub1 hc
              rw [esub c] at hc
              by_cases hcc : c = cid
              · rw [hcc, upd_same] at hc
                cases hc
                exact sdel_nodup (h.subNodup cid sub hs)
              · rw [upd_other _ _ hcc] at hc
                exact h.subNodup c sub1 hc
            · intro c sub1 hc
              rw [esub c] at hc
              by_cases hcc : c = cid
              · rw [hcc, upd_same] at hc
                cases hc
                exact h.queueBound cid sub hs
              · rw [upd_other _ _ hcc] at hc
                exact h.queueBound c sub1 hc
            · intro c sub1 q hc hq
              rw [esub c] at hc
              by_cases hcc : c = cid
              · rw [hcc, upd_same] at hc
                cases hc
                have hq1 : q ∈ sdel sub.topics topicName := hq
                obtain ⟨hq0, hqn⟩ := mem_sdel.mp hq1
                obtain ⟨tq, htq, hcm⟩ := h.subTopic cid sub q hs hq0
                refine ⟨tq, ?_, ?_⟩
                · rw [etop q, upd_other _ _ hqn]
                  exact htq
                · exact hcc ▸ hcm
              · rw [upd_other _ _ hcc] at hc
                obtain ⟨tq, htq, hcm⟩ := h.subTopic c sub1 q hc hq
                by_cases hqn : q = topicName
                · subst hqn
                  rw [ht] at htq
                  cases htq
                  refine ⟨{ t with subscribers := sdel t.subscribers cid }, ?_, ?_⟩
                  · rw [etop q, upd_same]
                  · exact mem_sdel.mpr ⟨hcm, hcc⟩
                · refine ⟨tq, ?_, hcm⟩
                  rw [etop q, upd_other _ _ hqn]
                  exact htq
          exact Inv_statsStep hmid topicName
            (fun st => (st.1, (sdel t.subscribers cid).length))

/-- Lazily inserting a fresh, empty subscriber record keeps the
invariant. -/
theorem Inv_freshSub {s : Sys} (h : Inv s) {cid : String}
    (hs : s.subscribers cid = none) (wsId : Nat) :
    Inv ({ s with
        subscribers := upd s.subscribers cid (some { ws := wsId, topics := [], queue := [] })
        totalSubscribers := s.totalSubscribers + 1 } : Sys) := by
  have esub : ∀ c, ({ s with
      subscribers := upd s.subscribers cid (some { ws := wsId, topics := [], queue := [] })
      totalSubscribers := s.totalSubscribers + 1 } : Sys).subscribers c =
        upd s.subscribers cid (some { ws := wsId, topics := [], queue := [] }) c :=
    fun _ => rfl
  constructor
  · exact h.maxPos
  · exact h.topicNodup
  · intro q tq c hq hc
    obtain ⟨sub1, hsub1, htn1⟩ := h.topicSub q tq c hq hc
    have hcc : c ≠ cid := by
      rintro rfl
      rw [hs] at hsub1
      cases hsub1
    refine ⟨sub1, ?_, htn1⟩
    rw [esub c, upd_other _ _ hcc]
    exact hsub1
  · intro c sub1 hc
    rw [esub c] at hc
    by_cases hcc : c = cid
    · rw [hcc, upd_same] at hc
      cases hc
      exact List.nodup_nil
    · rw [upd_other _ _ hcc] at hc
      exact h.subNodup c sub1 hc
  · intro c sub1 hc
    rw [esub c] at hc
    by_cases hcc : c = cid
    · rw [hcc, upd_same] at hc
      cases hc
      exact Nat.zero_le _
    · rw [upd_other _ _ hcc] at hc
      exact h.queueBound c sub1 hc
  · intro c sub1 q hc hq
    rw [esub c] at hc
    by_cases hcc : c = cid
    · rw [hcc, upd_same] at hc
      cases hc
      cases hq
    · rw [upd_other _ _ hcc] at hc
      exact h.subTopic c sub1 q hc hq

/-- Adding the two cross-references of a `subscribe` keeps the
invariant. -/
theorem Inv_addPair {s : Sys} (h : Inv s) {tn cid : String} {t : Topic}
    {sub : Subscriber} (ht : s.topics tn = some t)
    (hs : s.subscribers cid = some sub) :
    Inv ({ s with
        topics := upd s.topics tn (some { t with subscribers := sadd t.subscribers cid })
        subscribers := upd s.subscribers cid (some { sub with topics := sadd sub.topics tn }) } : Sys) := by
  have etop : ∀ q, ({ s with
      topics := upd s.topics tn (some { t with subscribers := sadd t.subscribers cid })
      subscribers := upd s.subscribers cid (some { sub with topics := sadd sub.topics tn }) } : Sys).topics q = upd s.topics tn (some { t with subscribers := sadd t.subscribers cid }) q :=
    fun _ => rfl
  have esub : ∀ c, ({ s with
      topics := upd s.topics tn (some { t with subscribers := sadd t.subscribers cid })
      subscribers := upd s.subscribers cid (some { sub with topics := sadd sub.topics tn }) } : Sys).subscribers c = upd s.subscribers cid (some { sub with topics := sadd sub.topics tn }) c :=
    fun _ => rfl
  constructor
  · exact h.maxPos
  · intro q tq hq
    rw [etop q] at hq
    by_cases hqn : q = tn
    · rw [hqn, upd_same] at hq
      cases hq
      exact sadd_nodup (h.topicNodup tn t ht)
    · rw [upd_other _ _ hqn] at hq
      exact h.topicNodup q tq hq
  · intro q tq c hq hc
    rw [etop q] at hq
    by_cases hqn : q = tn
    · subst hqn
      rw [upd_same] at hq
      cases hq
      rcases mem_sadd.mp hc with hcm | he
      · obtain ⟨sub1, hsub1, htn1⟩ := h.topicSub q t c ht hcm
        by_cases hcc : c = cid
        · subst hcc
          rw [hs] at hsub1
          cases hsub1
          refine ⟨{ sub with topics := sadd sub.topics q }, ?_, ?_⟩
          · rw [esub c, upd_same]
          · exact mem_sadd.mpr (Or.inl htn1)
        · refine ⟨sub1, ?_, htn1⟩
          rw [esub c, upd_other _ _ hcc]
          exact hsub1
      · subst he
        refine ⟨{ sub with topics := sadd sub.topics q }, ?_, ?_⟩
        · rw [esub c, upd_same]
        · exact mem_sadd.mpr (Or.inr rfl)
    · rw [upd_other _ _ hqn] at hq
      obtain ⟨sub1, hsub1, htn1⟩ := h.topicSub q tq c hq hc
      by_cases hcc : c = cid
      · subst hcc
        rw [hs] at hsub1
        cases hsub1
        refine ⟨{ sub with topics := sadd sub.topics tn }, ?_, ?_⟩
        · rw [esub c, upd_same]
        · exact mem_sadd.mpr (Or.inl htn1)
      · refine ⟨sub1, ?_, htn1⟩
        rw [esub c, upd_other _ _ hcc]
        exact hsub1
  · intro c sub1 hc
    rw [esub c] at hc
    by_cases hcc : c = cid
    · rw [hcc, upd_same] at hc
      cases hc
      exact sadd_nodup (h.subNodup cid sub hs)
    · rw [upd_other _ _ hcc] at hc
      exact h.subNodup c sub1 hc
  · intro c sub1 hc
    rw [esub c] at hc
    by_cases hcc : c = cid
    · rw [hcc, upd_same] at hc
      cases hc
      exact h.queueBound cid sub hs
    · rw [upd_other _ _ hcc] at hc
      exact h.queueBound c sub1 hc
  · intro c sub1 q hc hq
    rw [esub c] at hc
    by_cases hcc : c = cid
    · rw [hcc, upd_same] at hc
      cases hc
      have hq1 : q ∈ sadd sub.topics tn := hq
      by_cases hqn : q = tn
      · refine ⟨{ t with subscribers := sadd t.subscribers cid }, ?_, ?_⟩
        · rw [etop q, hqn, upd_same]
        · exact hcc ▸ mem_sadd.mpr (Or.inr rfl)
      · rcases mem_sadd.mp hq1 with hq0 | he
        · obtain ⟨tq, htq, hcm⟩ := h.subTopic cid sub q hs hq0
          refine ⟨tq, ?_, hcc ▸ hcm⟩
          rw [etop q, upd_other _ _ hqn]
          exact htq
        · exact absurd he hqn
    · rw [upd_other _ _ hcc] at hc
      obtain ⟨tq, htq, hcm⟩ := h.subTopic c sub1 q hc hq
      by_cases hqn : q = tn
      · subst hqn
        rw [ht] at htq
        cases htq
        refine ⟨{ t with subscribers := sadd t.subscribers cid }, ?_, ?_⟩
        · rw [etop q, upd_same]
        · exact mem_sadd.mpr (Or.inl hcm)
      · refine ⟨tq, ?_, hcm⟩
        rw [etop q, upd_other _ _ hqn]
        exact htq

theorem Inv_subscribe {s : Sys} (h : Inv s) (cid : String) (w : Nat)
    (tn : String) (n : Nat) : Inv (subscribe s cid w tn n).1 := by
  cases ht : s.topics tn with
  | none => simp only [subscribe, ht]; exact h
  | some t =>
      simp only [subscribe, ht]
      cases hs : s.subscribers cid with
      | some sub =>
          simp only
          have h2 := Inv_addPair h ht hs
          have h3 := Inv_statsStep h2 tn (fun st => (st.1, (sadd t.subscribers cid).length))
          split
          · exact Inv_replayLoop _ h3
          · exact h3
      | none =>
          simp only
          have h1 := Inv_freshSub h hs w
          have ht1 : ({ s with
              subscribers := upd s.subscribers cid (some { ws := w, topics := [], queue := [] })
              totalSubscribers := s.totalSubscribers + 1 } : Sys).topics tn = some t := ht
          have hs1 : ({ s with
              subscribers := upd s.subscribers cid (some { ws := w, topics := [], queue := [] })
              totalSubscribers := s.totalSubscribers + 1 } : Sys).subscribers cid =
                some { ws := w, topics := [], queue := [] } := by
            show upd s.subscribers cid (some { ws := w, topics := [], queue := [] }) cid = _
            rw [upd_same]
          have h2 := Inv_addPair h1 ht1 hs1
          have h3 := Inv_statsStep h2 tn (fun st => (st.1, (sadd t.subscribers cid).length))
          split
          · exact Inv_replayLoop _ h3
          · exact h3

theorem Inv_publish {s : Sys} (h : Inv s) (tn msg : String) (ts : Nat) :
    Inv (publish s tn msg ts).1 := by
  cases ht : s.topics tn with
  | none => simp only [publish, ht]; exact h
  | some t =>
      simp only [publish, ht]
      have h1 := Inv_setHistory h ht
        (if s.ringBufferSize < (t.messageHistory ++ [Event.mk tn msg ts]).length
         then (t.messageHistory ++ [Event.mk tn msg ts]).tail
         else t.messageHistory ++ [Event.mk tn msg ts])
      have h2 := Inv_fanOut (f := Frame.event { topic := tn, message := msg, ts := ts })
        t.subscribers [] h1
      have h3 : Inv ({ (fanOut (Frame.event { topic := tn, message := msg, ts := ts })
          ({ s with topics := upd s.topics tn (some { t with messageHistory :=
            (if s.ringBufferSize < (t.messageHistory ++ [Event.mk tn msg ts]).length
             then (t.messageHistory ++ [Event.mk tn msg ts]).tail
             else t.messageHistory ++ [Event.mk tn msg ts]) }) } : Sys)
          [] t.subscribers).1 with
          totalMessages := (fanOut (Frame.event { topic := tn, message := msg, ts := ts })
          ({ s with topics := upd s.topics tn (some { t with messageHistory :=
            (if s.ringBufferSize < (t.messageHistory ++ [Event.mk tn msg ts]).length
             then (t.messageHistory ++ [Event.mk tn msg ts]).tail
             else t.messageHistory ++ [Event.mk tn msg ts]) }) } : Sys)
          [] t.subscribers).1.totalMessages + 1 } : Sys) :=
        Inv_of_eq h2 rfl rfl rfl
      exact Inv_statsStep h3 tn (fun st => (st.1 + 1, st.2))

/-- Every operation preserves the registry invariant. -/
theorem Inv_applyOp {s : Sys} (h : Inv s) (op : Op) : Inv (applyOp s op) := by
  cases op with
  | createTopic n => exact Inv_createTopic h n
  | deleteTopic n => exact Inv_deleteTopic h n
  | subscribe c w t n => exact Inv_subscribe h c w t n
  | unsubscribe c t => exact Inv_unsubscribe h c t
  | publish t m ts => exact Inv_publish h t m ts
  | removeSubscriber c => exact Inv_removeSubscriber h c
  | openTransport w ok => exact Inv_setTransports h _
  | closeTransport w => exact Inv_setTransports h _

theorem Inv_runOps {s : Sys} (h : Inv s) (ops : List Op) : Inv (runOps s ops) := by
  induction ops generalizing s with
  | nil => exact h
  | cons op rest ih => exact ih (Inv_applyOp h op)

theorem jsOr_pos (o : Option Nat) {d : Nat} (hd : 0 < d) : 0 < jsOr o d := by
  cases o with
  | none => exact hd
  | some n =>
      by_cases hn : n = 0
      · simp [jsOr, hn]
        omega
      · simp [jsOr, hn]
        omega

/-- The freshly constructed system satisfies the invariant. -/
theorem Inv_init (maxQ ringB : Option Nat) (pol : Option Policy) :
    Inv (initSys maxQ ringB pol) := by
  constructor
  · exact jsOr_pos maxQ (by omega)
  · intro tn t ht
    cases ht
  · intro tn t c ht
    cases ht
  · intro c sub hc
    cases hc
  · intro c sub hc
    cases hc
  · intro c sub tn hc
    cases hc

/-! ## Configuration fields are never written -/

theorem enqueue_cfg (s : Sys) (cid : String) (f : Frame) :
    SameCfg s (enqueueMessage s cid f).1 := by
  cases hs : s.subscribers cid with
  | none => rw [enqueue_no_sub f hs]; exact sameCfg_rfl
  | some sub =>
      by_cases hws : (s.transports sub.ws).readyState = 1
      · by_cases hq : s.maxQueueSize ≤ sub.queue.length
        · cases hp : s.backpressurePolicy with
          | dropOldest =>
              rw [enqueue_dropOldest f hs hws hq hp]
              exact sameCfg_trans ⟨rfl, rfl, rfl⟩ (flush_cfg _ cid)
          | disconnect =>
              rw [enqueue_disconnect f hs hws hq hp]
              exact sameCfg_trans ⟨rfl, rfl, rfl⟩ (removeSubscriber_cfg _ cid)
        · rw [enqueue_push f hs hws (Nat.not_le.mp hq)]
          exact sameCfg_trans ⟨rfl, rfl, rfl⟩ (flush_cfg _ cid)
      · rw [enqueue_closed f hs hws]
        exact removeSubscriber_cfg s cid

theorem replayLoop_cfg (cid : String) :
    ∀ (l : List Event) (s : Sys), SameCfg s (replayLoop cid s l).1 := by
  intro l
  induction l with
  | nil => intro s; exact sameCfg_rfl
  | cons m rest ih =>
      intro s
      rw [replayLoop]
      cases hr : (enqueueMessage s cid (Frame.event m)).2
      · simp only [hr]
        exact enqueue_cfg s cid (Frame.event m)
      · simp only [hr]
        exact sameCfg_trans (enqueue_cfg s cid (Frame.event m)) (ih _)

theorem fanOut_cfg (f : Frame) :
    ∀ (l : List String) (s : Sys) (failed : List (String × String)),
      SameCfg s (fanOut f s failed l).1 := by
  intro l
  induction l with
  | nil => intro s failed; exact sameCfg_rfl
  | cons cid rest ih =>
      intro s failed
      rw [fanOut]
      exact sameCfg_trans (enqueue_cfg s cid f) (ih _ _)

theorem createTopic_cfg (s : Sys) (name : String) :
    SameCfg s (createTopic s name).1 := by
  cases ht : s.topics name <;> simp [createTopic, ht, sameCfg_rfl, SameCfg]

theorem statsStep_cfg (s2 : Sys) (tn : String) (f : Nat × Nat → Nat × Nat) :
    SameCfg s2 (match s2.topicStats tn with
         | none => s2
         | some st => { s2 with topicStats := upd s2.topicStats tn (some (f st)) }) := by
  cases h : s2.topicStats tn
  · exact sameCfg_rfl
  · exact ⟨rfl, rfl, rfl⟩

theorem deleteTopic_cfg (s : Sys) (name : String) :
    SameCfg s (deleteTopic s name).1 := by
  cases ht : s.topics name with
  | none => simp only [deleteTopic, ht]; exact sameCfg_rfl
  | some t =>
      simp only [deleteTopic, ht]
      refine sameCfg_trans (notifyLoop_cfg name t.subscribers s) ?_
      refine sameCfg_trans (detachLoop_cfg name t.subscribers _) ?_
      exact ⟨rfl, rfl, rfl⟩

theorem subscribe_cfg (s : Sys) (cid : String) (w : Nat) (tn : String) (n : Nat) :
    SameCfg s (subscribe s cid w tn n).1 := by
  cases ht : s.topics tn with
  | none => simp only [subscribe, ht]; exact sameCfg_rfl
  | some t =>
      simp only [subscribe, ht]
      cases hs : s.subscribers cid <;>
        simp only <;>
          cases hst : s.topicStats tn <;>
            simp only [hst] <;>
              split <;>
                first
                  | exact sameCfg_trans ⟨rfl, rfl, rfl⟩ (replayLoop_cfg cid _ _)
                  | exact ⟨rfl, rfl, rfl⟩

theorem unsubscribe_cfg (s : Sys) (cid tn : String) :
    SameCfg s (unsubscribe s cid tn).1 := by
  cases ht : s.topics tn with
  | none => simp only [unsubscribe, ht]; exact sameCfg_rfl
  | some t =>
      cases hs : s.subscribers cid with
      | none => simp only [unsubscribe, ht, hs]; exact sameCfg_rfl
      | some sub =>
          simp only [unsubscribe, ht, hs]
          cases hst : s.topicStats tn <;> simp only [hst] <;> exact ⟨rfl, rfl, rfl⟩

theorem publish_cfg (s : Sys) (tn msg : String) (ts : Nat) :
    SameCfg s (publish s tn msg ts).1 := by
  cases ht : s.topics tn with
  | none => simp only [publish, ht]; exact sameCfg_rfl
  | some t =>
      simp only [publish, ht]
      have hfan := fanOut_cfg (Frame.event (Event.mk tn msg ts)) t.subscribers
        ({ s with topics := upd s.topics tn (some { t with messageHistory :=
          (if s.ringBufferSize < (t.messageHistory ++ [Event.mk tn msg ts]).length
           then (t.messageHistory ++ [Event.mk tn msg ts]).tail
           else t.messageHistory ++ [Event.mk tn msg ts]) }) } : Sys) []
      have step1 : SameCfg s (fanOut (Frame.event (Event.mk tn msg ts))
          ({ s with topics := upd s.topics tn (some { t with messageHistory :=
            (if s.ringBufferSize < (t.messageHistory ++ [Event.mk tn msg ts]).length
             then (t.messageHistory ++ [Event.mk tn msg ts]).tail
             else t.messageHistory ++ [Event.mk tn msg ts]) }) } : Sys)
          [] t.subscribers).1 :=
        sameCfg_trans ⟨rfl, rfl, rfl⟩ hfan
      cases hst : (fanOut (Frame.event (Event.mk tn msg ts))
          ({ s with topics := upd s.topics tn (some { t with messageHistory :=
            (if s.ringBufferSize < (t.messageHistory ++ [Event.mk tn msg ts]).length
             then (t.messageHistory ++ [Event.mk tn msg ts]).tail
             else t.messageHistory ++ [Event.mk tn msg ts]) }) } : Sys)
          [] t.subscribers).1.topicStats tn <;>
        simp only [hst] <;>
          exact sameCfg_trans step1 ⟨rfl, rfl, rfl⟩

theorem applyOp_cfg (s : Sys) (op : Op) : SameCfg s (applyOp s op) := by
  cases op with
  | createTopic n => exact createTopic_cfg s n
  | deleteTopic n => exact deleteTopic_cfg s n
  | subscribe c w t n => exact subscribe_cfg s c w t n
  | unsubscribe c t => exact unsubscribe_cfg s c t
  | publish t m ts => exact publish_cfg s t m ts
  | removeSubscriber c => exact removeSubscriber_cfg s c
  | openTransport w ok => exact ⟨rfl, rfl, rfl⟩
  | closeTransport w => exact ⟨rfl, rfl, rfl⟩

theorem runOps_cfg (s : Sys) (ops : List Op) : SameCfg s (runOps s ops) := by
  induction ops generalizing s with
  | nil => exact sameCfg_rfl
  | cons op rest ih => exact sameCfg_trans (applyOp_cfg s op) (ih _)

/-! ## The per-topic publish stream and the ring-buffer invariant -/

/-- The history component of a topic, `none` when the topic is absent. -/
def histOf (s : Sys) (tn : String) : Option (List Event) :=
  (s.topics tn).map Topic.messageHistory

theorem histOf_dropFromTopic (cid tn0 : String) (s : Sys) (tn : String) :
    histOf (dropFromTopic cid tn0 s) tn = histOf s tn := by
  by_cases hq : tn = tn0
  · subst hq
    rw [histOf, dropFromTopic_topics_self, histOf]
    cases s.topics tn <;> rfl
  · rw [histOf, dropFromTopic_topics_other cid s hq, histOf]

theorem histOf_rst (cid : String) (l : List String) (s : Sys) (tn : String) :
    histOf (removeSubscriberTopics cid s l) tn = histOf s tn := by
  induction l generalizing s with
  | nil => rfl
  | cons tn0 rest ih =>
      rw [removeSubscriberTopics, ih, histOf_dropFromTopic]

theorem histOf_removeSubscriber (s : Sys) (cid tn : String) :
    histOf (removeSubscriber s cid) tn = histOf s tn := by
  cases hs : s.subscribers cid
  · simp [removeSubscriber, hs]
  · rename_i sub
    simp only [removeSubscriber, hs]
    rw [show histOf ({ removeSubscriberTopics cid s sub.topics with
        subscribers := upd (removeSubscriberTopics cid s sub.topics).subscribers cid none
        totalSubscribers := (removeSubscriberTopics cid s sub.topics).totalSubscribers - 1 } : Sys) tn = histOf (removeSubscriberTopics cid s sub.topics) tn from rfl]
    exact histOf_rst cid sub.topics s tn

theorem histOf_flush (s : Sys) (cid tn : String) :
    histOf (flushSubscriberQueue s cid) tn = histOf s tn := by
  rw [histOf, flush_topics, histOf]

theorem histOf_enqueue (s : Sys) (cid : String) (f : Frame) (tn : String) :
    histOf (enqueueMessage s cid f).1 tn = histOf s tn := by
  cases hs : s.subscribers cid with
  | none => rw [enqueue_no_sub f hs]
  | some sub =>
      by_cases hws : (s.transports sub.ws).readyState = 1
      · by_cases hq : s.maxQueueSize ≤ sub.queue.length
        · cases hp : s.backpressurePolicy with
          | dropOldest =>
              rw [enqueue_dropOldest f hs hws hq hp]
              rw [show (flushSubscriberQueue ({ s with subscribers := upd s.subscribers cid (some { sub with queue := sub.queue.tail ++ [f] }) } : Sys) cid, (Except.ok () : Except String Unit)).1 = flushSubscriberQueue ({ s with subscribers := upd s.subscribers cid (some { sub with queue := sub.queue.tail ++ [f] }) } : Sys) cid from rfl]
              rw [histOf_flush]
              rfl
          | disconnect =>
              rw [enqueue_disconnect f hs hws hq hp]
              rw [show (removeSubscriber ({ s with transports := (updT s.transports sub.ws (if (s.transports sub.ws).sendOk then Transport.close { (s.transports sub.ws) with sent := (s.transports sub.ws).sent ++ [Frame.error "SLOW_CONSUMER"] } else s.transports sub.ws)) } : Sys) cid, (Except.error "SLOW_CONSUMER" : Except String Unit)).1 = removeSubscriber ({ s with transports := (updT s.transports sub.ws (if (s.transports sub.ws).sendOk then Transport.close { (s.transports sub.ws) with sent := (s.transports sub.ws).sent ++ [Frame.error "SLOW_CONSUMER"] } else s.transports sub.ws)) } : Sys) cid from rfl]
              rw [histOf_removeSubscriber]
              rfl
        · rw [enqueue_push f hs hws (Nat.not_le.mp hq)]
          rw [show (flushSubscriberQueue ({ s with subscribers := upd s.subscribers cid (some { sub with queue := sub.queue ++ [f] }) } : Sys) cid, (Except.ok () : Except String Unit)).1 = flushSubscriberQueue ({ s with subscribers := upd s.subscribers cid (some { sub with queue := sub.queue ++ [f] }) } : Sys) cid from rfl]
          rw [histOf_flush]
          rfl
      · rw [enqueue_closed f hs hws]
        rw [show (removeSubscriber s cid, (Except.error "SUBSCRIBER_DISCONNECTED" : Except String Unit)).1 = removeSubscriber s cid from rfl]
        exact histOf_removeSubscriber s cid tn

theorem histOf_replayLoop (cid : String) :
    ∀ (l : List Event) (s : Sys) (tn : String),
      histOf (replayLoop cid s l).1 tn = histOf s tn := by
  intro l
  induction l with
  | nil => intro s tn; rfl
  | cons m rest ih =>
      intro s tn
      rw [replayLoop]
      cases hr : (enqueueMessage s cid (Frame.event m)).2
      · simp only [hr]
        exact histOf_enqueue s cid (Frame.event m) tn
      · simp only [hr]
        rw [ih _ tn]
        exact histOf_enqueue s cid (Frame.event m) tn

theorem histOf_fanOut (f : Frame) :
    ∀ (l : List String) (s : Sys) (failed : List (String × String)) (tn : String),
      histOf (fanOut f s failed l).1 tn = histOf s tn := by
  intro l
  induction l with
  | nil => intro s failed tn; rfl
  | cons cid rest ih =>
      intro s failed tn
      rw [fanOut]
      rw [ih _ _ tn]
      exact histOf_enqueue s cid f tn

theorem createTopic_topics_other (s : Sys) {name q : String} (h : q ≠ name) :
    (createTopic s name).1.topics q = s.topics q := by
  cases ht : s.topics name
  · simp [createTopic, ht, upd_other _ _ h]
  · simp [createTopic, ht]

theorem createTopic_of_some (s : Sys) {name : String} {t : Topic}
    (ht : s.topics name = some t) : createTopic s name = (s, .error "TOPIC_ALREADY_EXISTS") := by
  simp [createTopic, ht]

theorem createTopic_topics_self (s : Sys) {name : String}
    (ht : s.topics name = none) :
    (createTopic s name).1.topics name = some { subscribers := [], messageHistory := [] } := by
  simp [createTopic, ht, upd_same]

theorem deleteTopic_topics_self (s : Sys) (name : String) :
    (deleteTopic s name).1.topics name = none := by
  cases ht : s.topics name
  · simp [deleteTopic, ht]
  · rename_i t
    simp only [deleteTopic, ht]
    show upd (detachLoop name (notifyLoop name s t.subscribers) t.subscribers).topics name none name = none
    rw [upd_same]

theorem deleteTopic_topics_other (s : Sys) {name q : String} (h : q ≠ name) :
    (deleteTopic s name).1.topics q = s.topics q := by
  cases ht : s.topics name
  · simp [deleteTopic, ht]
  · rename_i t
    simp only [deleteTopic, ht]
    show upd (detachLoop name (notifyLoop name s t.subscribers) t.subscribers).topics name none q = s.topics q
    rw [upd_other _ _ h, detachLoop_topics, notifyLoop_topics]

theorem histOf_matchStep {tn : String} (s2 : Sys) (o : Option (Nat × Nat))
    (g : Nat × Nat → Sys) (hg : ∀ st, histOf (g st) tn = histOf s2 tn) :
    histOf (match o with | none => s2 | some st => g st) tn = histOf s2 tn := by
  cases o
  · rfl
  · exact hg _

theorem histOf_replayStep (cid : String) (s3 : Sys) (c : Prop) [Decidable c]
    (l : List Event) (tn : String) :
    histOf (if c then replayLoop cid s3 l else (s3, .ok ())).1 tn = histOf s3 tn := by
  split
  · exact histOf_replayLoop cid l s3 tn
  · rfl

theorem histOf_upd_sameHist {s : Sys} {tn0 : String} {t : Topic}
    (t1 : Topic) (s1 : Sys) (ht : s.topics tn0 = some t)
    (h1 : s1.topics = upd s.topics tn0 (some t1))
    (hh : t1.messageHistory = t.messageHistory) (tn : String) :
    histOf s1 tn = histOf s tn := by
  rw [histOf, h1, histOf]
  by_cases hq : tn = tn0
  · subst hq
    rw [upd_same, ht]
    simp [hh]
  · rw [upd_other _ _ hq]

theorem subscribeOp_histOf (s : Sys) (cid : String) (w : Nat) (tn0 : String)
    (n : Nat) (tn : String) :
    histOf (subscribe s cid w tn0 n).1 tn = histOf s tn := by
  cases ht : s.topics tn0 with
  | none => simp only [subscribe, ht]
  | some t =>
      simp only [subscribe, ht]
      cases hs : s.subscribers cid with
      | none =>
          simp only
          refine (histOf_replayStep cid _ _ _ tn).trans
            ((histOf_matchStep _ _ _ ?_).trans
              (histOf_upd_sameHist { t with subscribers := sadd t.subscribers cid } _ ht ?_ rfl tn))
          · exact fun _ => rfl
          · rfl
      | some sub =>
          simp only
          refine (histOf_replayStep cid _ _ _ tn).trans
            ((histOf_matchStep _ _ _ ?_).trans
              (histOf_upd_sameHist { t with subscribers := sadd t.subscribers cid } _ ht ?_ rfl tn))
          · exact fun _ => rfl
          · rfl

theorem unsubscribeOp_histOf (s : Sys) (cid : String) (tn0 tn : String) :
    histOf (unsubscribe s cid tn0).1 tn = histOf s tn := by
  cases ht : s.topics tn0 with
  | none => simp only [unsubscribe, ht]
  | some t =>
      cases hs : s.subscribers cid with
      | none => simp only [unsubscribe, ht, hs]
      | some sub =>
          simp only [unsubscribe, ht, hs]
          refine (histOf_matchStep _ _ _ ?_).trans
            (histOf_upd_sameHist { t with subscribers := sdel t.subscribers cid } _ ht ?_ rfl tn)
          · exact fun _ => rfl
          · rfl

theorem publish_of_none (s : Sys) {tn : String} (msg : String) (ts : Nat)
    (ht : s.topics tn = none) :
    publish s tn msg ts = (s, .error "TOPIC_NOT_FOUND") := by
  simp [publish, ht]

theorem publish_histOf_self (s : Sys) {tn : String} {t : Topic} (msg : String)
    (ts : Nat) (ht : s.topics tn = some t) :
    histOf (publish s tn msg ts).1 tn =
      some (if s.ringBufferSize < (t.messageHistory ++ [Event.mk tn msg ts]).length
            then (t.messageHistory ++ [Event.mk tn msg ts]).tail
            else t.messageHistory ++ [Event.mk tn msg ts]) := by
  simp only [publish, ht]
  have h1 : histOf ({ s with topics := upd s.topics tn (some { t with messageHistory :=
      (if s.ringBufferSize < (t.messageHistory ++ [Event.mk tn msg ts]).length
       then (t.messageHistory ++ [Event.mk tn msg ts]).tail
       else t.messageHistory ++ [Event.mk tn msg ts]) }) } : Sys) tn =
      some (if s.ringBufferSize < (t.messageHistory ++ [Event.mk tn msg ts]).length
            then (t.messageHistory ++ [Event.mk tn msg ts]).tail
            else t.messageHistory ++ [Event.mk tn msg ts]) := by
    rw [histOf]
    rw [show ({ s with topics := upd s.topics tn (some { t with messageHistory :=
      (if s.ringBufferSize < (t.messageHistory ++ [Event.mk tn msg ts]).length
       then (t.messageHistory ++ [Event.mk tn msg ts]).tail
       else t.messageHistory ++ [Event.mk tn msg ts]) }) } : Sys).topics tn =
        some { t with messageHistory :=
          (if s.ringBufferSize < (t.messageHistory ++ [Event.mk tn msg ts]).length
           then (t.messageHistory ++ [Event.mk tn msg ts]).tail
           else t.messageHistory ++ [Event.mk tn msg ts]) } from upd_same _ _ _]
    rfl
  refine (histOf_matchStep _ _ _ ?_).trans
    ((histOf_fanOut (Frame.event (Event.mk tn msg ts)) t.subscribers
      ({ s with topics := upd s.topics tn (some { t with messageHistory :=
        (if s.ringBufferSize < (t.messageHistory ++ [Event.mk tn msg ts]).length
         then (t.messageHistory ++ [Event.mk tn msg ts]).tail
         else t.messageHistory ++ [Event.mk tn msg ts]) }) } : Sys) [] tn).trans h1)
  exact fun _ => rfl

theorem publish_histOf_other (s : Sys) {tn : String} {t : Topic} (msg : String)
    (ts : Nat) (ht : s.topics tn = some t) {q : String} (hq : q ≠ tn) :
    histOf (publish s tn msg ts).1 q = histOf s q := by
  simp only [publish, ht]
  have h1 : histOf ({ s with topics := upd s.topics tn (some { t with messageHistory :=
      (if s.ringBufferSize < (t.messageHistory ++ [Event.mk tn msg ts]).length
       then (t.messageHistory ++ [Event.mk tn msg ts]).tail
       else t.messageHistory ++ [Event.mk tn msg ts]) }) } : Sys) q = histOf s q := by
    rw [histOf, histOf]
    rw [show ({ s with topics := upd s.topics tn (some { t with messageHistory :=
      (if s.ringBufferSize < (t.messageHistory ++ [Event.mk tn msg ts]).length
       then (t.messageHistory ++ [Event.mk tn msg ts]).tail
       else t.messageHistory ++ [Event.mk tn msg ts]) }) } : Sys).topics q = s.topics q
      from upd_other _ _ hq]
  refine (histOf_matchStep _ _ _ ?_).trans
    ((histOf_fanOut (Frame.event (Event.mk tn msg ts)) t.subscribers
      ({ s with topics := upd s.topics tn (some { t with messageHistory :=
        (if s.ringBufferSize < (t.messageHistory ++ [Event.mk tn msg ts]).length
         then (t.messageHistory ++ [Event.mk tn msg ts]).tail
         else t.messageHistory ++ [Event.mk tn msg ts]) }) } : Sys) [] q).trans h1)
  exact fun _ => rfl

/-- The publish stream of a topic along a run: the events of the successful
publishes to it since it was last (re)created, in order. A successful
`createTopic` starts a fresh stream; a successful `deleteTopic` clears
it. -/
def pubStreamAcc (tn : String) : Sys → List Op → List Event → List Event
  | _, [], acc => acc
  | s, op :: rest, acc =>
      let acc1 :=
        match op with
        | .publish t m ts =>
            if t = tn ∧ (s.topics tn).isSome then acc ++ [Event.mk tn m ts] else acc
        | .createTopic t => if t = tn ∧ (s.topics tn).isNone then [] else acc
        | .deleteTopic t => if t = tn ∧ (s.topics tn).isSome then [] else acc
        | _ => acc
      pubStreamAcc tn (applyOp s op) rest acc1

/-- The publish stream of `tn` along `ops` from `s0`. -/
def pubStream (s0 : Sys) (tn : String) (ops : List Op) : List Event :=
  pubStreamAcc tn s0 ops []

theorem histInv_transfer {s s1 : Sys} {tn : String} {R : Nat} {acc : List Event}
    (he : histOf s1 tn = histOf s tn)
    (hh : ∀ t, s.topics tn = some t → t.messageHistory = takeLast R acc) :
    ∀ t, s1.topics tn = some t → t.messageHistory = takeLast R acc := by
  intro t htt
  have h2 : histOf s1 tn = some t.messageHistory := by
    rw [histOf, htt]
    rfl
  rw [he] at h2
  cases hx : s.topics tn <;> rw [histOf, hx] at h2
  · cases h2
  · rename_i t0
    simp at h2
    rw [← h2]
    exact hh t0 hx

/-- The ring-buffer induction: along any run the history of `tn` stays the
`R`-suffix of its publish stream. -/
theorem histInv_runOps (tn : String) (R : Nat) :
    ∀ (ops : List Op) (s : Sys) (acc : List Event),
      s.ringBufferSize = R →
      (∀ t, s.topics tn = some t → t.messageHistory = takeLast R acc) →
      ∀ t, (runOps s ops).topics tn = some t →
        t.messageHistory = takeLast R (pubStreamAcc tn s ops acc) := by
  intro ops
  induction ops with
  | nil => intro s acc hR hh t ht; exact hh t ht
  | cons op rest ih =>
      intro s acc hR hh t ht
      have hR1 : (applyOp s op).ringBufferSize = R := by
        rw [(applyOp_cfg s op).2.1, hR]
      have hrun : runOps s (op :: rest) = runOps (applyOp s op) rest := rfl
      rw [hrun] at ht
      cases op with
      | publish t0 m ts =>
          rw [pubStreamAcc]
          by_cases h0 : t0 = tn
          · subst h0
            by_cases hx : (s.topics t0).isSome
            · rw [if_pos ⟨rfl, hx⟩]
              obtain ⟨tp, hxe⟩ := Option.isSome_iff_exists.mp hx
              refine ih (applyOp s (Op.publish t0 m ts)) (acc ++ [Event.mk t0 m ts])
                hR1 ?_ t ht
              intro t1 ht1
              have hh0 := hh tp hxe
              have hhist : histOf (applyOp s (Op.publish t0 m ts)) t0 =
                  some (if s.ringBufferSize < (tp.messageHistory ++ [Event.mk t0 m ts]).length
                        then (tp.messageHistory ++ [Event.mk t0 m ts]).tail
                        else tp.messageHistory ++ [Event.mk t0 m ts]) :=
                publish_histOf_self s m ts hxe
              have h2 : histOf (applyOp s (Op.publish t0 m ts)) t0 =
                  some t1.messageHistory := by
                rw [histOf, ht1]
                rfl
              rw [hhist] at h2
              have h3 := Option.some.inj h2
              rw [← h3, hh0, hR]
              exact ringPush R acc (Event.mk t0 m ts)
            · rw [if_neg (fun hand => hx hand.2)]
              have hxe : s.topics t0 = none := Option.not_isSome_iff_eq_none.mp hx
              have happ : applyOp s (Op.publish t0 m ts) = s := by
                simp only [applyOp]
                rw [publish_of_none s m ts hxe]
              rw [happ] at ht ⊢
              exact ih s acc hR hh t ht
          · have hg : ¬ (t0 = tn ∧ (s.topics tn).isSome) := fun hand => h0 hand.1
            rw [if_neg hg]
            cases hx : s.topics t0 with
            | none =>
                have happ : applyOp s (Op.publish t0 m ts) = s := by
                  simp only [applyOp]
                  rw [publish_of_none s m ts hx]
                rw [happ] at ht ⊢
                exact ih s acc hR hh t ht
            | some tp =>
                refine ih (applyOp s (Op.publish t0 m ts)) acc hR1 ?_ t ht
                exact histInv_transfer
                  (publish_histOf_other s m ts hx (fun he => h0 he.symm)) hh
      | createTopic t0 =>
          rw [pubStreamAcc]
          by_cases h0 : t0 = tn
          · subst h0
            by_cases hx : (s.topics t0).isNone
            · rw [if_pos ⟨rfl, hx⟩]
              have hxe : s.topics t0 = none := Option.isNone_iff_eq_none.mp hx
              refine ih (applyOp s (Op.createTopic t0)) [] hR1 ?_ t ht
              intro t1 ht1
              have ht2 : (applyOp s (Op.createTopic t0)).topics t0 =
                  some { subscribers := [], messageHistory := [] } :=
                createTopic_topics_self s hxe
              rw [ht2] at ht1
              cases ht1
              rw [takeLast_nil]
            · rw [if_neg (fun hand => hx hand.2)]
              have hxe : ∃ tp, s.topics t0 = some tp := by
                cases hy : s.topics t0
                · rw [hy] at hx
                  exact absurd rfl hx
                · exact ⟨_, rfl⟩
              obtain ⟨tp, hxe⟩ := hxe
              have happ : applyOp s (Op.createTopic t0) = s := by
                simp only [applyOp]
                rw [createTopic_of_some s hxe]
              rw [happ] at ht ⊢
              exact ih s acc hR hh t ht
          · have hg : ¬ (t0 = tn ∧ (s.topics tn).isNone) := fun hand => h0 hand.1
            rw [if_neg hg]
            refine ih (applyOp s (Op.createTopic t0)) acc hR1 ?_ t ht
            intro t1 ht1
            have ht2 : (applyOp s (Op.createTopic t0)).topics tn = s.topics tn :=
              createTopic_topics_other s (fun he => h0 he.symm)
            rw [ht2] at ht1
            exact hh t1 ht1
      | deleteTopic t0 =>
          rw [pubStreamAcc]
          by_cases h0 : t0 = tn
          · subst h0
            have hdel : (applyOp s (Op.deleteTopic t0)).topics t0 = none :=
              deleteTopic_topics_self s t0
            by_cases hx : (s.topics t0).isSome
            · have hg : (t0 = t0 ∧ (s.topics t0).isSome) := ⟨rfl, hx⟩
              rw [if_pos hg]
              refine ih (applyOp s (Op.deleteTopic t0)) [] hR1 ?_ t ht
              intro t1 ht1
              rw [hdel] at ht1
              cases ht1
            · have hg : ¬ (t0 = t0 ∧ (s.topics t0).isSome) := fun hand => hx hand.2
              rw [if_neg hg]
              refine ih (applyOp s (Op.deleteTopic t0)) acc hR1 ?_ t ht
              intro t1 ht1
              rw [hdel] at ht1
              cases ht1
          · have hg : ¬ (t0 = tn ∧ (s.topics tn).isSome) := fun hand => h0 hand.1
            rw [if_neg hg]
            refine ih (applyOp s (Op.deleteTopic t0)) acc hR1 ?_ t ht
            intro t1 ht1
            have ht2 : (applyOp s (Op.deleteTopic t0)).topics tn = s.topics tn :=
              deleteTopic_topics_other s (fun he => h0 he.symm)
            rw [ht2] at ht1
            exact hh t1 ht1
      | subscribe c w t0 n =>
          show t.messageHistory = takeLast R (pubStreamAcc tn (applyOp s (Op.subscribe c w t0 n)) rest acc)
          refine ih (applyOp s (Op.subscribe c w t0 n)) acc hR1 ?_ t ht
          exact histInv_transfer (subscribeOp_histOf s c w t0 n tn) hh
      | unsubscribe c t0 =>
          show t.messageHistory = takeLast R (pubStreamAcc tn (applyOp s (Op.unsubscribe c t0)) rest acc)
          refine ih (applyOp s (Op.unsubscribe c t0)) acc hR1 ?_ t ht
          exact histInv_transfer (unsubscribeOp_histOf s c t0 tn) hh
      | removeSubscriber c =>
          show t.messageHistory = takeLast R (pubStreamAcc tn (applyOp s (Op.removeSubscriber c)) rest acc)
          refine ih (applyOp s (Op.removeSubscriber c)) acc hR1 ?_ t ht
          exact histInv_transfer (histOf_removeSubscriber s c tn) hh
      | openTransport w ok =>
          show t.messageHistory = takeLast R (pubStreamAcc tn (applyOp s (Op.openTransport w ok)) rest acc)
          refine ih (applyOp s (Op.openTransport w ok)) acc hR1 ?_ t ht
          exact histInv_transfer rfl hh
      | closeTransport w =>
          show t.messageHistory = takeLast R (pubStreamAcc tn (applyOp s (Op.closeTransport w)) rest acc)
          refine ih (applyOp s (Op.closeTransport w)) acc hR1 ?_ t ht
          exact histInv_transfer rfl hh

theorem detachStep_transports (tn cid : String) (s : Sys) :
    (detachStep tn cid s).transports = s.transports := by
  cases h : s.subscribers cid <;> simp [detachStep, h]

theorem detachLoop_transports (tn : String) (l : List String) (s : Sys) :
    (detachLoop tn s l).transports = s.transports := by
  induction l generalizing s with
  | nil => rfl
  | cons c rest ih => rw [detachLoop, ih, detachStep_transports]

theorem notifyStep_transports_other (tn c : String) (s : Sys) {w : Nat}
    (h : ∀ sub', s.subscribers c = some sub' → sub'.ws ≠ w) :
    (notifyStep tn c s).transports w = s.transports w := by
  cases hc : s.subscribers c with
  | none => simp [notifyStep, hc]
  | some sub' =>
      by_cases hws : (s.transports sub'.ws).readyState = 1
      · simp only [notifyStep, hc, if_pos hws]
        exact updT_other _ _ (Ne.symm (h sub' hc))
      · simp [notifyStep, hc, hws]

theorem notifyLoop_transports_of_none (tn : String) {l : List String} (s : Sys)
    {w : Nat} (h : ∀ c ∈ l, ∀ sub', s.subscribers c = some sub' → sub'.ws ≠ w) :
    (notifyLoop tn s l).transports w = s.transports w := by
  induction l generalizing s with
  | nil => rfl
  | cons c rest ih =>
      rw [notifyLoop,
        ih (notifyStep tn c s) (fun c' hc' sub' hs' =>
          h c' (List.mem_cons_of_mem c hc') sub'
            ((notifyStep_subscribers tn c s) ▸ hs')),
        notifyStep_transports_other tn c s (h c (List.mem_cons_self c rest))]

theorem notifyLoop_transports_mem (tn : String) {l : List String} {cid : String}
    {sub : Subscriber} (s : Sys) (hnd : l.Nodup) (hmem : cid ∈ l)
    (hs : s.subscribers cid = some sub)
    (hothers : ∀ c ∈ l, c ≠ cid → ∀ sub',
      s.subscribers c = some sub' → sub'.ws ≠ sub.ws) :
    (notifyLoop tn s l).transports sub.ws =
      if (s.transports sub.ws).readyState = 1 then
        ((s.transports sub.ws).send (Frame.info tn "topic_deleted")).1
      else s.transports sub.ws := by
  induction l generalizing s with
  | nil => cases hmem
  | cons c rest ih =>
      rcases List.mem_cons.mp hmem with rfl | hmem'
      · rw [notifyLoop,
          notifyLoop_transports_of_none tn (notifyStep tn cid s)
            (fun c' hc' sub' hs' =>
              hothers c' (List.mem_cons_of_mem cid hc')
                (fun he => (List.nodup_cons.mp hnd).1 (he ▸ hc')) sub'
                ((notifyStep_subscribers tn cid s) ▸ hs'))]
        by_cases hws : (s.transports sub.ws).readyState = 1 <;>
          simp [notifyStep, hs, hws, updT_same]
      · have hne : c ≠ cid := fun he => (List.nodup_cons.mp hnd).1 (he ▸ hmem')
        have hstep : (notifyStep tn c s).transports sub.ws = s.transports sub.ws :=
          notifyStep_transports_other tn c s
            (fun sub' hs' => hothers c (List.mem_cons_self c rest) hne sub' hs')
        rw [notifyLoop,
          ih (notifyStep tn c s) (List.nodup_cons.mp hnd).2 hmem'
            ((notifyStep_subscribers tn c s) ▸ hs)
            (fun c' hc' hne' sub' hs' =>
              hothers c' (List.mem_cons_of_mem c hc') hne' sub'
                ((notifyStep_subscribers tn c s) ▸ hs')),
          hstep]

theorem flush_transports_other {s : Sys} {cid : String} {w : Nat}
    (h : ∀ sub0, s.subscribers cid = some sub0 → sub0.ws ≠ w) :
    (flushSubscriberQueue s cid).transports w = s.transports w := by
  cases hs : s.subscribers cid with
  | none => rw [flush_of_none hs]
  | some sub =>
      by_cases hws : (s.transports sub.ws).readyState ≠ 1
      · simp [flushSubscriberQueue, hs, hws]
      · simp only [flushSubscriberQueue, hs, if_neg hws]
        exact updT_other _ _ (Ne.symm (h sub hs))

theorem enqueue_subscribers_ws {s : Sys} (cid : String) (f : Frame)
    {c : String} {sub' : Subscriber}
    (h : (enqueueMessage s cid f).1.subscribers c = some sub') :
    ∃ sub0, s.subscribers c = some sub0 ∧ sub'.ws = sub0.ws := by
  cases hs : s.subscribers cid with
  | none =>
      rw [enqueue_no_sub f hs] at h
      exact ⟨sub', h, rfl⟩
  | some sub =>
      by_cases hws : (s.transports sub.ws).readyState = 1
      · by_cases hq : s.maxQueueSize ≤ sub.queue.length
        · cases hp : s.backpressurePolicy with
          | dropOldest =>
              rw [enqueue_dropOldest f hs hws hq hp] at h
              have h' : (flushSubscriberQueue
                  { s with subscribers := (upd s.subscribers cid
                      (some { sub with queue := sub.queue.tail ++ [f] })) }
                  cid).subscribers c = some sub' := h
              by_cases hc : c = cid
              · subst hc
                obtain ⟨q1, hq1, _⟩ := flush_subscribers_self
                  { s with subscribers := (upd s.subscribers c
                      (some { sub with queue := sub.queue.tail ++ [f] })) }
                  (upd_same s.subscribers c _)
                rw [hq1] at h'
                obtain rfl := Option.some.inj h'
                exact ⟨sub, hs, rfl⟩
              · rw [flush_subscribers_other _ hc] at h'
                have h'' : upd s.subscribers cid
                    (some { sub with queue := sub.queue.tail ++ [f] }) c =
                      some sub' := h'
                rw [upd_other _ _ hc] at h''
                exact ⟨sub', h'', rfl⟩
          | disconnect =>
              rw [enqueue_disconnect f hs hws hq hp] at h
              by_cases hc : c = cid
              · subst hc
                rw [removeSubscriber_subscribers_self] at h
                cases h
              · rw [removeSubscriber_subscribers_other _ hc] at h
                exact ⟨sub', h, rfl⟩
        · rw [enqueue_push f hs hws (Nat.lt_of_not_le hq)] at h
          have h' : (flushSubscriberQueue
              { s with subscribers := (upd s.subscribers cid
                  (some { sub with queue := sub.queue ++ [f] })) }
              cid).subscribers c = some sub' := h
          by_cases hc : c = cid
          · subst hc
            obtain ⟨q1, hq1, _⟩ := flush_subscribers_self
              { s with subscribers := (upd s.subscribers c
                  (some { sub with queue := sub.queue ++ [f] })) }
              (upd_same s.subscribers c _)
            rw [hq1] at h'
            obtain rfl := Option.some.inj h'
            exact ⟨sub, hs, rfl⟩
          · rw [flush_subscribers_other _ hc] at h'
            have h'' : upd s.subscribers cid
                (some { sub with queue := sub.queue ++ [f] }) c = some sub' := h'
            rw [upd_other _ _ hc] at h''
            exact ⟨sub', h'', rfl⟩
      · rw [enqueue_closed f hs hws] at h
        by_cases hc : c = cid
        · subst hc
          rw [removeSubscriber_subscribers_self] at h
          cases h
        · rw [removeSubscriber_subscribers_other _ hc] at h
          exact ⟨sub', h, rfl⟩

theorem enqueue_transports_other {s : Sys} (cid : String) (f : Frame) {w : Nat}
    (h : ∀ sub0, s.subscribers cid = some sub0 → sub0.ws ≠ w) :
    (enqueueMessage s cid f).1.transports w = s.transports w := by
  cases hs : s.subscribers cid with
  | none => rw [enqueue_no_sub f hs]
  | some sub =>
      by_cases hws : (s.transports sub.ws).readyState = 1
      · by_cases hq : s.maxQueueSize ≤ sub.queue.length
        · cases hp : s.backpressurePolicy with
          | dropOldest =>
              rw [enqueue_dropOldest f hs hws hq hp]
              show (flushSubscriberQueue
                  { s with subscribers := (upd s.subscribers cid
                      (some { sub with queue := sub.queue.tail ++ [f] })) }
                  cid).transports w = s.transports w
              rw [flush_transports_other]
              intro sub0 h0
              have h0' : upd s.subscribers cid
                  (some { sub with queue := sub.queue.tail ++ [f] }) cid =
                    some sub0 := h0
              rw [upd_same] at h0'
              obtain rfl := Option.some.inj h0'
              exact h sub hs
          | disconnect =>
              rw [enqueue_disconnect f hs hws hq hp]
              show (removeSubscriber
                  { s with transports := (updT s.transports sub.ws _) }
                  cid).transports w = s.transports w
              rw [congrFun (removeSubscriber_transports _ cid) w]
              exact updT_other _ _ (Ne.symm (h sub hs))
        · rw [enqueue_push f hs hws (Nat.lt_of_not_le hq)]
          show (flushSubscriberQueue
              { s with subscribers := (upd s.subscribers cid
                  (some { sub with queue := sub.queue ++ [f] })) }
              cid).transports w = s.transports w
          rw [flush_transports_other]
          intro sub0 h0
          have h0' : upd s.subscribers cid
              (some { sub with queue := sub.queue ++ [f] }) cid = some sub0 := h0
          rw [upd_same] at h0'
          obtain rfl := Option.some.inj h0'
          exact h sub hs
      · rw [enqueue_closed f hs hws]
        exact congrFun (removeSubscriber_transports s cid) w

theorem replayLoop_subscribers_ws {cid : String} :
    ∀ (l : List Event) (s : Sys) {c : String} {sub' : Subscriber},
      (replayLoop cid s l).1.subscribers c = some sub' →
      ∃ sub0, s.subscribers c = some sub0 ∧ sub'.ws = sub0.ws := by
  intro l
  induction l with
  | nil => intro s c sub' h; exact ⟨sub', h, rfl⟩
  | cons m rest ih =>
      intro s c sub' h
      rw [replayLoop] at h
      cases hr : (enqueueMessage s cid (Frame.event m)).2 with
      | error e =>
          rw [hr] at h
          exact enqueue_subscribers_ws cid (Frame.event m) h
      | ok u =>
          rw [hr] at h
          obtain ⟨subm, hm, hwm⟩ := ih _ h
          obtain ⟨sub0, h0, hw0⟩ := enqueue_subscribers_ws cid (Frame.event m) hm
          exact ⟨sub0, h0, hwm.trans hw0⟩

theorem replayLoop_transports_other {cid : String} {w : Nat} :
    ∀ (l : List Event) (s : Sys),
      (∀ sub0, s.subscribers cid = some sub0 → sub0.ws ≠ w) →
      (replayLoop cid s l).1.transports w = s.transports w := by
  intro l
  induction l with
  | nil => intro s _; rfl
  | cons m rest ih =>
      intro s h
      rw [replayLoop]
      cases hr : (enqueueMessage s cid (Frame.event m)).2 with
      | error e =>
          exact enqueue_transports_other cid (Frame.event m) h
      | ok u =>
          show (replayLoop cid (enqueueMessage s cid (Frame.event m)).1
            rest).1.transports w = s.transports w
          rw [ih _ (fun sub0 h0 => by
            obtain ⟨sub1, h1, hw1⟩ := enqueue_subscribers_ws cid (Frame.event m) h0
            exact hw1 ▸ h sub1 h1)]
          exact enqueue_transports_other cid (Frame.event m) h

theorem subscribe_result_cases {s : Sys} {cid : String} {sub : Subscriber}
    (hs : s.subscribers cid = some sub) (w2 : Nat) (tn : String) (lastN : Nat) :
    (subscribe s cid w2 tn lastN).1 = s ∨
    ∃ s3 evs, s3.subscribers = upd s.subscribers cid
        (some { sub with topics := sadd sub.topics tn }) ∧
      s3.transports = s.transports ∧
      ((subscribe s cid w2 tn lastN).1 = s3 ∨
       (subscribe s cid w2 tn lastN).1 = (replayLoop cid s3 evs).1) := by
  cases ht : s.topics tn with
  | none => left; simp only [subscribe, ht]
  | some t =>
      right
      simp only [subscribe, ht, hs]
      cases hst : s.topicStats tn <;> simp only [hst] <;> split
      · refine ⟨_, _, ?_, ?_, Or.inr rfl⟩ <;> rfl
      · refine ⟨_, [], ?_, ?_, Or.inl rfl⟩ <;> rfl
      · refine ⟨_, _, ?_, ?_, Or.inr rfl⟩ <;> rfl
      · refine ⟨_, [], ?_, ?_, Or.inl rfl⟩ <;> rfl

/-! ## The claims -/

/-- C7: after any sequence of operations on a freshly constructed system,
bidirectional membership (I1/P1) holds: a subscriber is in a topic's
subscriber set exactly when the topic's name is in that subscriber's topic
set. -/
theorem memberIff_after_runOps (maxQ ringB : Option Nat) (pol : Option Policy)
    (ops : List Op) (tn : String) (t : Topic) (cid : String) (sub : Subscriber)
    (ht : (runOps (initSys maxQ ringB pol) ops).topics tn = some t)
    (hs : (runOps (initSys maxQ ringB pol) ops).subscribers cid = some sub) :
    cid ∈ t.subscribers ↔ tn ∈ sub.topics := by
  have h := Inv_runOps (Inv_init maxQ ringB pol) ops
  constructor
  · intro hc
    obtain ⟨sub1, hsub1, htn⟩ := h.topicSub tn t cid ht hc
    rw [hs] at hsub1
    cases hsub1
    exact htn
  · intro htn
    obtain ⟨t1, ht1, hc⟩ := h.subTopic cid sub tn hs htn
    rw [ht] at ht1
    cases ht1
    exact hc

/-- Witness for C7: a concrete run with one subscriber joined to one
topic. -/
theorem memberIff_after_runOps_witness :
    ("a" ∈ (Topic.mk ["a"] []).subscribers ↔
      "t" ∈ (Subscriber.mk 1 ["t"] []).topics) :=
  memberIff_after_runOps none none none
    [Op.openTransport 1 true, Op.createTopic "t", Op.subscribe "a" 1 "t" 0]
    "t" (Topic.mk ["a"] []) "a" (Subscriber.mk 1 ["t"] [])
    (by decide) (by decide)

/-- C8: after any run from a freshly constructed system, each topic's
history equals the `ringBufferSize`-suffix of that topic's publish stream,
in publish order, with length `min(publishes, ringBufferSize)` (FIFO
eviction). -/
theorem bounded_replay_history (maxQ ringB : Option Nat) (pol : Option Policy)
    (ops : List Op) (tn : String) (t : Topic)
    (ht : (runOps (initSys maxQ ringB pol) ops).topics tn = some t) :
    t.messageHistory =
      takeLast (runOps (initSys maxQ ringB pol) ops).ringBufferSize
        (pubStream (initSys maxQ ringB pol) tn ops) ∧
    t.messageHistory.length =
      min (pubStream (initSys maxQ ringB pol) tn ops).length
        (runOps (initSys maxQ ringB pol) ops).ringBufferSize := by
  have hRfin : (runOps (initSys maxQ ringB pol) ops).ringBufferSize =
      (initSys maxQ ringB pol).ringBufferSize := (runOps_cfg _ ops).2.1
  have h1 := histInv_runOps tn (initSys maxQ ringB pol).ringBufferSize ops
    (initSys maxQ ringB pol) [] rfl (fun t0 ht0 => by cases ht0) t ht
  constructor
  · rw [hRfin]
    exact h1
  · rw [hRfin, h1, takeLast_length]
    exact Nat.min_comm _ _

/-- Witness for C8: with capacity 1, two publishes keep only the newer
event. -/
theorem bounded_replay_history_witness :
    (Topic.mk [] [Event.mk "t" "b" 2]).messageHistory =
      takeLast (runOps (initSys none (some 1) none)
          [Op.createTopic "t", Op.publish "t" "a" 1, Op.publish "t" "b" 2]).ringBufferSize
        (pubStream (initSys none (some 1) none) "t"
          [Op.createTopic "t", Op.publish "t" "a" 1, Op.publish "t" "b" 2]) ∧
    (Topic.mk [] [Event.mk "t" "b" 2]).messageHistory.length =
      min (pubStream (initSys none (some 1) none) "t"
          [Op.createTopic "t", Op.publish "t" "a" 1, Op.publish "t" "b" 2]).length
        (runOps (initSys none (some 1) none)
          [Op.createTopic "t", Op.publish "t" "a" 1, Op.publish "t" "b" 2]).ringBufferSize :=
  bounded_replay_history none (some 1) none
    [Op.createTopic "t", Op.publish "t" "a" 1, Op.publish "t" "b" 2]
    "t" (Topic.mk [] [Event.mk "t" "b" 2]) (by decide)

/-- Draining against an OPEN transport whose sends fail leaves the record
and the transport table untouched. -/
theorem flush_blocked {s : Sys} {cid : String} {sub : Subscriber}
    (hs : s.subscribers cid = some sub)
    (hws : (s.transports sub.ws).readyState = 1)
    (hok : (s.transports sub.ws).sendOk = false) :
    (flushSubscriberQueue s cid).subscribers cid = some sub ∧
    (∀ c, c ≠ cid → (flushSubscriberQueue s cid).subscribers c = s.subscribers c) ∧
    (∀ w, (flushSubscriberQueue s cid).transports w = s.transports w) := by
  simp only [flushSubscriberQueue, hs]
  rw [if_neg (fun hne => hne hws)]
  rw [flushLoop_not_sendOk hok]
  refine ⟨?_, ?_, ?_⟩
  · show upd s.subscribers cid (some { sub with queue := sub.queue }) cid = some sub
    rw [upd_same]
  · intro c hc
    show upd s.subscribers cid (some { sub with queue := sub.queue }) c = s.subscribers c
    rw [upd_other _ _ hc]
  · intro w
    show updT s.transports sub.ws (s.transports sub.ws) w = s.transports w
    by_cases hw : w = sub.ws
    · rw [hw, updT_same]
    · rw [updT_other _ _ hw]

/-- C9: under `DROP_OLDEST`, an enqueue against a full queue discards the
head and appends the new frame, the subscriber stays registered and its
transport stays open (first conjunct, shown with a blocked transport so
the queue is observable); and after every operation sequence every
subscriber's queue length is bounded by `maxQueueSize` (second
conjunct, invariant I4). -/
theorem dropOldest_enqueue_spec :
    (∀ (s : Sys) (cid : String) (sub : Subscriber) (f : Frame),
      s.backpressurePolicy = .dropOldest →
      s.subscribers cid = some sub →
      (s.transports sub.ws).readyState = 1 →
      (s.transports sub.ws).sendOk = false →
      sub.queue.length = s.maxQueueSize →
      0 < s.maxQueueSize →
      (enqueueMessage s cid f).2 = .ok () ∧
      (enqueueMessage s cid f).1.subscribers cid =
        some { sub with queue := sub.queue.tail ++ [f] } ∧
      ((enqueueMessage s cid f).1.transports sub.ws).readyState = 1) ∧
    (∀ (maxQ ringB : Option Nat) (pol : Option Policy) (ops : List Op)
      (cid : String) (sub : Subscriber),
      (runOps (initSys maxQ ringB pol) ops).subscribers cid = some sub →
      sub.queue.length ≤ (runOps (initSys maxQ ringB pol) ops).maxQueueSize) := by
  constructor
  · intro s cid sub f hp hs hws hok hfull hpos
    have hq : s.maxQueueSize ≤ sub.queue.length := le_of_eq hfull.symm
    rw [enqueue_dropOldest f hs hws hq hp]
    have hs1 : ({ s with subscribers := (upd s.subscribers cid
        (some { sub with queue := sub.queue.tail ++ [f] })) } : Sys).subscribers cid =
          some { sub with queue := sub.queue.tail ++ [f] } := by
      show upd s.subscribers cid (some { sub with queue := sub.queue.tail ++ [f] }) cid = _
      rw [upd_same]
    obtain ⟨hrec, _, htr⟩ := flush_blocked hs1 hws hok
    exact ⟨rfl, hrec, by rw [htr sub.ws, hws]⟩
  · intro maxQ ringB pol ops cid sub hs
    exact (Inv_runOps (Inv_init maxQ ringB pol) ops).queueBound cid sub hs

/-- Witness for C9: a two-slot queue holding `E1, E2` takes `E3` by
dropping `E1`, and the bound holds on a concrete run. -/
theorem dropOldest_enqueue_spec_witness :
    ((enqueueMessage
        (runOps (initSys (some 2) none none)
          [Op.createTopic "t", Op.openTransport 1 false, Op.subscribe "a" 1 "t" 0,
           Op.publish "t" "E1" 1, Op.publish "t" "E2" 2])
        "a" (Frame.event (Event.mk "t" "E3" 3))).2 = .ok () ∧
     (enqueueMessage
        (runOps (initSys (some 2) none none)
          [Op.createTopic "t", Op.openTransport 1 false, Op.subscribe "a" 1 "t" 0,
           Op.publish "t" "E1" 1, Op.publish "t" "E2" 2])
        "a" (Frame.event (Event.mk "t" "E3" 3))).1.subscribers "a" =
        some { ws := 1, topics := ["t"],
               queue := [Frame.event (Event.mk "t" "E1" 1),
                         Frame.event (Event.mk "t" "E2" 2)].tail ++
                 [Frame.event (Event.mk "t" "E3" 3)] } ∧
     ((enqueueMessage
        (runOps (initSys (some 2) none none)
          [Op.createTopic "t", Op.openTransport 1 false, Op.subscribe "a" 1 "t" 0,
           Op.publish "t" "E1" 1, Op.publish "t" "E2" 2])
        "a" (Frame.event (Event.mk "t" "E3" 3))).1.transports 1).readyState = 1) ∧
    (Subscriber.mk 1 ["t"] [Frame.event (Event.mk "t" "E1" 1),
        Frame.event (Event.mk "t" "E2" 2)]).queue.length ≤
      (runOps (initSys (some 2) none none)
        [Op.createTopic "t", Op.openTransport 1 false, Op.subscribe "a" 1 "t" 0,
         Op.publish "t" "E1" 1, Op.publish "t" "E2" 2]).maxQueueSize :=
  ⟨dropOldest_enqueue_spec.1
      (runOps (initSys (some 2) none none)
        [Op.createTopic "t", Op.openTransport 1 false, Op.subscribe "a" 1 "t" 0,
         Op.publish "t" "E1" 1, Op.publish "t" "E2" 2])
      "a" (Subscriber.mk 1 ["t"] [Frame.event (Event.mk "t" "E1" 1),
        Frame.event (Event.mk "t" "E2" 2)]) (Frame.event (Event.mk "t" "E3" 3))
      (by decide) (by decide) (by decide) (by decide) (by decide) (by decide),
   dropOldest_enqueue_spec.2 (some 2) none none
      [Op.createTopic "t", Op.openTransport 1 false, Op.subscribe "a" 1 "t" 0,
       Op.publish "t" "E1" 1, Op.publish "t" "E2" 2]
      "a" (Subscriber.mk 1 ["t"] [Frame.event (Event.mk "t" "E1" 1),
        Frame.event (Event.mk "t" "E2" 2)]) (by decide)⟩

/-- Counterexample to C2: with topics `A` and `B` and client `a` joined
only to `A`, the pair `(a, B)` is not joined and both the topic and the
record exist, yet `unsubscribe(a, B)` returns `{unsubscribed, B, a}`
instead of failing `SubscriptionNotFound`. -/
theorem unsubscribe_not_joined_succeeds :
    (runOps (initSys none none none)
        [Op.createTopic "A", Op.createTopic "B", Op.openTransport 1 true,
         Op.subscribe "a" 1 "A" 0]).topics "B" = some (Topic.mk [] []) ∧
    (runOps (initSys none none none)
        [Op.createTopic "A", Op.createTopic "B", Op.openTransport 1 true,
         Op.subscribe "a" 1 "A" 0]).subscribers "a" =
      some (Subscriber.mk 1 ["A"] []) ∧
    "a" ∉ (Topic.mk [] [] : Topic).subscribers ∧
    (unsubscribe (runOps (initSys none none none)
        [Op.createTopic "A", Op.createTopic "B", Op.openTransport 1 true,
         Op.subscribe "a" 1 "A" 0]) "a" "B").2 =
      .ok { topic := "B", clientId := "a" } := by
  decide

/-- C2 (amended): `unsubscribe` fails with `SUBSCRIPTION_NOT_FOUND`
(surfaced as `TOPIC_NOT_FOUND` by the session handler) exactly when the
topic does not exist or no subscriber record exists for the client; when
both exist it returns `{unsubscribed, topic, client_id}` even if the pair
is not currently joined. -/
theorem unsubscribe_spec (s : Sys) (cid tn : String) :
    ((unsubscribe s cid tn).2 = .error "SUBSCRIPTION_NOT_FOUND" ↔
      (s.topics tn = none ∨ s.subscribers cid = none)) ∧
    (∀ t sub, s.topics tn = some t → s.subscribers cid = some sub →
      (unsubscribe s cid tn).2 = .ok { topic := tn, clientId := cid }) ∧
    mapUnsubscribeError "SUBSCRIPTION_NOT_FOUND" = "TOPIC_NOT_FOUND" := by
  refine ⟨?_, ?_, rfl⟩
  · cases ht : s.topics tn <;> cases hs : s.subscribers cid <;>
      simp [unsubscribe, ht, hs]
  · intro t sub ht hsub
    simp [unsubscribe, ht, hsub]

/-- Witness for C2 (amended), applied at the counterexample state. -/
theorem unsubscribe_spec_witness :
    ((unsubscribe (runOps (initSys none none none)
        [Op.createTopic "A", Op.createTopic "B", Op.openTransport 1 true,
         Op.subscribe "a" 1 "A" 0]) "a" "B").2 = .error "SUBSCRIPTION_NOT_FOUND" ↔
      ((runOps (initSys none none none)
        [Op.createTopic "A", Op.createTopic "B", Op.openTransport 1 true,
         Op.subscribe "a" 1 "A" 0]).topics "B" = none ∨
       (runOps (initSys none none none)
        [Op.createTopic "A", Op.createTopic "B", Op.openTransport 1 true,
         Op.subscribe "a" 1 "A" 0]).subscribers "a" = none)) ∧
    (unsubscribe (runOps (initSys none none none)
        [Op.createTopic "A", Op.createTopic "B", Op.openTransport 1 true,
         Op.subscribe "a" 1 "A" 0]) "a" "B").2 =
      .ok { topic := "B", clientId := "a" } :=
  ⟨(unsubscribe_spec (runOps (initSys none none none)
      [Op.createTopic "A", Op.createTopic "B", Op.openTransport 1 true,
       Op.subscribe "a" 1 "A" 0]) "a" "B").1,
   (unsubscribe_spec (runOps (initSys none none none)
      [Op.createTopic "A", Op.createTopic "B", Op.openTransport 1 true,
       Op.subscribe "a" 1 "A" 0]) "a" "B").2.1
     (Topic.mk [] []) (Subscriber.mk 1 ["A"] []) (by decide) (by decide)⟩

/-- C3: evidence of the close-handler bug. The connection's
server-generated id (`ws.clientId`, here `srv-conn-1`) differs from the
client-supplied `client_id` used at subscribe time, so the close handler's
`removeSubscriber(ws.clientId)` removes nothing: after the transport
closes, the record `client-a` still exists, is still referenced by topic
`t`, and its transport is no longer OPEN — the claimed cleanup (and
invariant I2) fails. -/
theorem close_leaves_stale_subscriber :
    (handleClose
        (runOps (initSys none none none)
          [Op.openTransport 1 true, Op.createTopic "t",
           Op.subscribe "client-a" 1 "t" 0, Op.closeTransport 1])
        "srv-conn-1").subscribers "client-a" = some (Subscriber.mk 1 ["t"] []) ∧
    (handleClose
        (runOps (initSys none none none)
          [Op.openTransport 1 true, Op.createTopic "t",
           Op.subscribe "client-a" 1 "t" 0, Op.closeTransport 1])
        "srv-conn-1").topics "t" = some (Topic.mk ["client-a"] []) ∧
    ((handleClose
        (runOps (initSys none none none)
          [Op.openTransport 1 true, Op.createTopic "t",
           Op.subscribe "client-a" 1 "t" 0, Op.closeTransport 1])
        "srv-conn-1").transports 1).readyState = 3 := by
  decide

/-- Counterexample to C5: constructing with `ringBufferSize = 0` yields a
capacity of 100 (`0 || 100` in JS), so after one publish the history is
non-empty and a subscriber joining with `last_n = 1` has the event
replayed into its queue. -/
theorem ringBuffer_zero_coerced :
    (initSys (some 1000) (some 0) none).ringBufferSize = 100 ∧
    (runOps (initSys (some 1000) (some 0) none)
      [Op.createTopic "t", Op.publish "t" "m1" 1, Op.openTransport 1 false,
       Op.subscribe "c" 1 "t" 1]).topics "t" =
        some (Topic.mk ["c"] [Event.mk "t" "m1" 1]) ∧
    (runOps (initSys (some 1000) (some 0) none)
      [Op.createTopic "t", Op.publish "t" "m1" 1, Op.openTransport 1 false,
       Op.subscribe "c" 1 "t" 1]).subscribers "c" =
        some (Subscriber.mk 1 ["t"] [Frame.event (Event.mk "t" "m1" 1)]) := by
  decide

/-- C5 (amended): configuring `ring_buffer_size = 0` is coerced to the
default 100 by the constructor's `||`, so replay stays enabled; the ring
logic itself does disable replay in any state whose `ringBufferSize` field
is 0 — publish keeps an empty history empty and subscribe replays
nothing — but no constructor input produces such a state. -/
theorem ringBuffer_zero_spec :
    (∀ (maxQ : Option Nat) (pol : Option Policy),
      (initSys maxQ (some 0) pol).ringBufferSize = 100) ∧
    (∀ (s : Sys) (tn m : String) (ts : Nat) (t t1 : Topic),
      s.ringBufferSize = 0 → s.topics tn = some t → t.messageHistory = [] →
      (publish s tn m ts).1.topics tn = some t1 → t1.messageHistory = []) ∧
    (∀ (s : Sys) (cid : String) (w : Nat) (tn : String) (n : Nat) (t : Topic),
      s.topics tn = some t → t.messageHistory = [] →
      s.subscribers cid = none →
      (subscribe s cid w tn n).1.subscribers cid =
        some (Subscriber.mk w [tn] [])) := by
  refine ⟨fun maxQ pol => rfl, ?_, ?_⟩
  · intro s tn m ts t t1 hR ht hhist ht1
    have h2 : histOf (publish s tn m ts).1 tn = some t1.messageHistory := by
      rw [histOf, ht1]
      rfl
    rw [publish_histOf_self s m ts ht] at h2
    have h3 := Option.some.inj h2
    rw [← h3, hhist, hR]
    simp
  · intro s cid w tn n t ht hhist hs
    simp only [subscribe, ht, hs]
    have hcond : ¬ (0 < n ∧ 0 < t.messageHistory.length) := by
      rw [hhist]
      simp
    cases hst : s.topicStats tn <;>
      simp only [hst] <;>
        rw [if_neg hcond] <;>
          (show upd (upd s.subscribers cid (some (Subscriber.mk w [] []))) cid
              (some (Subscriber.mk w (sadd [] tn) [])) cid = _
           rw [upd_same]
           simp [sadd])

/-- Witness for C5 (amended): the three parts at concrete inputs — the
second on a raw state whose `ringBufferSize` field is 0. -/
theorem ringBuffer_zero_spec_witness :
    (initSys (some 5) (some 0) none).ringBufferSize = 100 ∧
    (Topic.mk [] [] : Topic).messageHistory = [] ∧
    (subscribe (runOps (initSys (some 5) none none) [Op.createTopic "t"])
        "c" 1 "t" 2).1.subscribers "c" = some (Subscriber.mk 1 ["t"] []) :=
  ⟨ringBuffer_zero_spec.1 (some 5) none,
   ringBuffer_zero_spec.2.1
     ({ initSys none none none with
         ringBufferSize := 0
         topics := upd (fun _ => none) "t" (some (Topic.mk [] [])) } : Sys)
     "t" "m" 7 (Topic.mk [] []) (Topic.mk [] [])
     rfl (by decide) rfl (by decide),
   ringBuffer_zero_spec.2.2 (runOps (initSys (some 5) none none) [Op.createTopic "t"])
     "c" 1 "t" 2 (Topic.mk [] []) (by decide) (by decide) (by decide)⟩

/-- A push-enqueue against an OPEN but blocked transport appends to the
queue and changes nothing else. -/
theorem enqueue_blocked_push {s : Sys} {cid : String} {sub : Subscriber} (f : Frame)
    (hs : s.subscribers cid = some sub)
    (hws : (s.transports sub.ws).readyState = 1)
    (hok : (s.transports sub.ws).sendOk = false)
    (hq : sub.queue.length < s.maxQueueSize) :
    (enqueueMessage s cid f).2 = .ok () ∧
    (enqueueMessage s cid f).1.subscribers cid =
      some { sub with queue := sub.queue ++ [f] } ∧
    (∀ c, c ≠ cid → (enqueueMessage s cid f).1.subscribers c = s.subscribers c) ∧
    (∀ w, (enqueueMessage s cid f).1.transports w = s.transports w) ∧
    (enqueueMessage s cid f).1.topics = s.topics ∧
    (enqueueMessage s cid f).1.maxQueueSize = s.maxQueueSize := by
  rw [enqueue_push f hs hws hq]
  have hs1 : ({ s with subscribers := (upd s.subscribers cid
      (some { sub with queue := sub.queue ++ [f] })) } : Sys).subscribers cid =
        some { sub with queue := sub.queue ++ [f] } := by
    show upd s.subscribers cid (some { sub with queue := sub.queue ++ [f] }) cid = _
    rw [upd_same]
  obtain ⟨h1, h2, h3⟩ := flush_blocked hs1 hws hok
  refine ⟨rfl, h1, ?_, h3, ?_, ?_⟩
  · intro c hc
    rw [h2 c hc]
    show upd s.subscribers cid (some { sub with queue := sub.queue ++ [f] }) c = _
    rw [upd_other _ _ hc]
  · rw [flush_topics]
  · rw [(flush_cfg _ cid).1]

/-- Replaying a list of events to a subscriber on an OPEN blocked
transport appends exactly those events, in order, to its queue. -/
theorem replayLoop_blocked (cid : String) :
    ∀ (l : List Event) (s : Sys) (sub : Subscriber),
      s.subscribers cid = some sub →
      (s.transports sub.ws).readyState = 1 →
      (s.transports sub.ws).sendOk = false →
      sub.queue.length + l.length ≤ s.maxQueueSize →
      (replayLoop cid s l).2 = .ok () ∧
      (replayLoop cid s l).1.subscribers cid =
        some { sub with queue := sub.queue ++ l.map Frame.event } := by
  intro l
  induction l with
  | nil =>
      intro s sub hs hws hok hcap
      refine ⟨rfl, ?_⟩
      show s.subscribers cid = _
      rw [hs]
      simp
  | cons m rest ih =>
      intro s sub hs hws hok hcap
      have hql : sub.queue.length < s.maxQueueSize := by
        simp only [List.length_cons] at hcap
        omega
      obtain ⟨e1, e2, e3, e4, e5, e6⟩ := enqueue_blocked_push (Frame.event m) hs hws hok hql
      rw [replayLoop]
      simp only [e1]
      have hws1 : ((enqueueMessage s cid (Frame.event m)).1.transports
          ({ sub with queue := sub.queue ++ [Frame.event m] } : Subscriber).ws).readyState = 1 := by
        rw [e4]
        exact hws
      have hok1 : ((enqueueMessage s cid (Frame.event m)).1.transports
          ({ sub with queue := sub.queue ++ [Frame.event m] } : Subscriber).ws).sendOk = false := by
        rw [e4]
        exact hok
      have hcap0 : (sub.queue ++ [Frame.event m]).length + rest.length ≤ s.maxQueueSize := by
        rw [List.length_append, List.length_singleton]
        simp only [List.length_cons] at hcap
        omega
      have hcap1 : ({ sub with queue := sub.queue ++ [Frame.event m] } : Subscriber).queue.length
          + rest.length ≤ (enqueueMessage s cid (Frame.event m)).1.maxQueueSize :=
        le_of_le_of_eq hcap0 e6.symm
      obtain ⟨r1, r2⟩ := ih (enqueueMessage s cid (Frame.event m)).1
        { sub with queue := sub.queue ++ [Frame.event m] } e2 hws1 hok1 hcap1
      refine ⟨r1, ?_⟩
      rw [r2]
      simp

/-- C6: a fresh subscribe with replay on an existing topic enqueues exactly
the last `min(last_n, |history|)` history events, in original publish
order, onto the subscriber's outbound queue (stated with an OPEN but
blocked transport so the enqueued events remain observable in the queue,
and with capacity for the replayed events). For `last_n = 0` or an empty
history nothing is replayed, matching `takeLast`. -/
theorem subscribe_replay_spec (s : Sys) (cid : String) (w : Nat) (tn : String)
    (lastN : Nat) (t : Topic)
    (ht : s.topics tn = some t) (hs : s.subscribers cid = none)
    (hws : (s.transports w).readyState = 1)
    (hok : (s.transports w).sendOk = false)
    (hcap : min lastN t.messageHistory.length ≤ s.maxQueueSize) :
    (subscribe s cid w tn lastN).2 = .ok { topic := tn, clientId := cid } ∧
    (subscribe s cid w tn lastN).1.subscribers cid =
      some { ws := w, topics := [tn],
             queue := (takeLast lastN t.messageHistory).map Frame.event } ∧
    (takeLast lastN t.messageHistory).length = min lastN t.messageHistory.length := by
  have hmap0 : ¬ (0 < lastN ∧ 0 < t.messageHistory.length) →
      (takeLast lastN t.messageHistory).map Frame.event = [] := by
    intro hcond
    rcases Nat.eq_zero_or_pos lastN with h0 | h0
    · subst h0
      have hz : takeLast 0 t.messageHistory = [] := by
        simp [takeLast]
      rw [hz]
      rfl
    · have hh : t.messageHistory.length = 0 := by
        rcases Nat.eq_zero_or_pos t.messageHistory.length with hz | hp
        · exact hz
        · exact absurd ⟨h0, hp⟩ hcond
      have hz := List.eq_nil_of_length_eq_zero hh
      rw [hz, takeLast_nil]
      rfl
  simp only [subscribe, ht, hs]
  cases hst : s.topicStats tn with
  | none =>
      simp only [hst]
      by_cases hcond : (0 < lastN ∧ 0 < t.messageHistory.length)
      · rw [if_pos hcond]
        obtain ⟨r1, r2⟩ := replayLoop_blocked cid (takeLast lastN t.messageHistory)
          ({ s with
              topics := upd s.topics tn (some { t with subscribers := sadd t.subscribers cid })
              subscribers := (upd (upd s.subscribers cid (some (Subscriber.mk w [] []))) cid
                (some (Subscriber.mk w (sadd [] tn) [])))
              totalSubscribers := s.totalSubscribers + 1 } : Sys)
          (Subscriber.mk w (sadd [] tn) [])
          (by
            show upd (upd s.subscribers cid (some (Subscriber.mk w [] []))) cid
              (some (Subscriber.mk w (sadd [] tn) [])) cid = _
            rw [upd_same])
          hws hok
          (by
            show 0 + (takeLast lastN t.messageHistory).length ≤ s.maxQueueSize
            rw [takeLast_length]
            omega)
        refine ⟨?_, ?_, takeLast_length _ _⟩
        · rw [r1]
        · rw [r2]
          simp [sadd]
      · rw [if_neg hcond]
        refine ⟨rfl, ?_, takeLast_length _ _⟩
        show upd (upd s.subscribers cid (some (Subscriber.mk w [] []))) cid
            (some (Subscriber.mk w (sadd [] tn) [])) cid = _
        rw [upd_same, hmap0 hcond]
        simp [sadd]
  | some st =>
      simp only [hst]
      by_cases hcond : (0 < lastN ∧ 0 < t.messageHistory.length)
      · rw [if_pos hcond]
        obtain ⟨r1, r2⟩ := replayLoop_blocked cid (takeLast lastN t.messageHistory)
          ({ s with
              topics := upd s.topics tn (some { t with subscribers := sadd t.subscribers cid })
              subscribers := (upd (upd s.subscribers cid (some (Subscriber.mk w [] []))) cid
                (some (Subscriber.mk w (sadd [] tn) [])))
              topicStats := (upd s.topicStats tn (some (st.1, (sadd t.subscribers cid).length)))
              totalSubscribers := s.totalSubscribers + 1 } : Sys)
          (Subscriber.mk w (sadd [] tn) [])
          (by
            show upd (upd s.subscribers cid (some (Subscriber.mk w [] []))) cid
              (some (Subscriber.mk w (sadd [] tn) [])) cid = _
            rw [upd_same])
          hws hok
          (by
            show 0 + (takeLast lastN t.messageHistory).length ≤ s.maxQueueSize
            rw [takeLast_length]
            omega)
        refine ⟨?_, ?_, takeLast_length _ _⟩
        · rw [r1]
        · rw [r2]
          simp [sadd]
      · rw [if_neg hcond]
        refine ⟨rfl, ?_, takeLast_length _ _⟩
        show upd (upd s.subscribers cid (some (Subscriber.mk w [] []))) cid
            (some (Subscriber.mk w (sadd [] tn) [])) cid = _
        rw [upd_same, hmap0 hcond]
        simp [sadd]

/-- Witness for C6: after publishing `U1, U2, U3`, a subscriber joining
with `last_n = 2` gets `U2` then `U3` in its queue, and no `U1`. -/
theorem subscribe_replay_spec_witness :
    (subscribe (runOps (initSys none none none)
        [Op.createTopic "orders", Op.publish "orders" "U1" 1,
         Op.publish "orders" "U2" 2, Op.publish "orders" "U3" 3,
         Op.openTransport 7 false]) "c" 7 "orders" 2).2 =
      .ok { topic := "orders", clientId := "c" } ∧
    (subscribe (runOps (initSys none none none)
        [Op.createTopic "orders", Op.publish "orders" "U1" 1,
         Op.publish "orders" "U2" 2, Op.publish "orders" "U3" 3,
         Op.openTransport 7 false]) "c" 7 "orders" 2).1.subscribers "c" =
      some { ws := 7, topics := ["orders"],
             queue := [Frame.event (Event.mk "orders" "U2" 2),
                       Frame.event (Event.mk "orders" "U3" 3)] } ∧
    (takeLast 2 [Event.mk "orders" "U1" 1, Event.mk "orders" "U2" 2,
        Event.mk "orders" "U3" 3]).length =
      min 2 [Event.mk "orders" "U1" 1, Event.mk "orders" "U2" 2,
        Event.mk "orders" "U3" 3].length :=
  subscribe_replay_spec (runOps (initSys none none none)
      [Op.createTopic "orders", Op.publish "orders" "U1" 1,
       Op.publish "orders" "U2" 2, Op.publish "orders" "U3" 3,
       Op.openTransport 7 false]) "c" 7 "orders" 2
    (Topic.mk [] [Event.mk "orders" "U1" 1, Event.mk "orders" "U2" 2,
      Event.mk "orders" "U3" 3])
    (by decide) (by decide) (by decide) (by decide) (by decide)

/-- A successful enqueue never touches the topic table. -/
theorem enqueue_ok_topics {s : Sys} {cid : String} {f : Frame} {u : Unit}
    (hr : (enqueueMessage s cid f).2 = .ok u) :
    (enqueueMessage s cid f).1.topics = s.topics := by
  cases hs : s.subscribers cid with
  | none =>
      rw [enqueue_no_sub f hs] at hr
      cases hr
  | some sub =>
      by_cases hws : (s.transports sub.ws).readyState = 1
      · by_cases hq : s.maxQueueSize ≤ sub.queue.length
        · cases hp : s.backpressurePolicy with
          | dropOldest =>
              rw [enqueue_dropOldest f hs hws hq hp]
              rw [flush_topics]
          | disconnect =>
              rw [enqueue_disconnect f hs hws hq hp] at hr
              cases hr
        · rw [enqueue_push f hs hws (Nat.not_le.mp hq)]
          rw [flush_topics]
      · rw [enqueue_closed f hs hws] at hr
        cases hr

/-- A failing enqueue (under the invariant, with an existing record)
removes the client from every topic's subscriber set and nothing else. -/
theorem enqueue_error_topics {s : Sys} {cid : String} {f : Frame} {e : String}
    (h : Inv s) (hrec : ∃ sub, s.subscribers cid = some sub)
    (hr : (enqueueMessage s cid f).2 = .error e) :
    ∀ tn t, s.topics tn = some t →
      (enqueueMessage s cid f).1.topics tn =
        some { t with subscribers := sdel t.subscribers cid } := by
  obtain ⟨sub, hs⟩ := hrec
  intro tn t ht
  by_cases hws : (s.transports sub.ws).readyState = 1
  · by_cases hq : s.maxQueueSize ≤ sub.queue.length
    · cases hp : s.backpressurePolicy with
      | dropOldest =>
          rw [enqueue_dropOldest f hs hws hq hp] at hr
          cases hr
      | disconnect =>
          rw [enqueue_disconnect f hs hws hq hp]
          have h2 : Inv ({ s with transports := (updT s.transports sub.ws
              (if (s.transports sub.ws).sendOk then
                Transport.close
                  { (s.transports sub.ws) with
                    sent := (s.transports sub.ws).sent ++ [Frame.error "SLOW_CONSUMER"] }
               else s.transports sub.ws)) } : Sys) := Inv_setTransports h _
          rw [removeSubscriber_topics h2 cid tn]
          show (s.topics tn).map _ = _
          rw [ht]
          rfl
    · rw [enqueue_push f hs hws (Nat.not_le.mp hq)] at hr
      cases hr
  · rw [enqueue_closed f hs hws]
    show (removeSubscriber s cid).topics tn = _
    rw [removeSubscriber_topics h cid tn, ht]
    rfl

/-- The fan-out induction: iterating the snapshot under the invariant, the
failed deliveries are appended in order, each failure removes its client
from the topic, successes leave the membership alone, and the counts
balance. -/
theorem fanOut_spec (ev : Frame) (tn : String) :
    ∀ (l : List String) (s : Sys) (failed0 : List (String × String)) (t : Topic),
      Inv s → s.topics tn = some t → l.Nodup → (∀ c, c ∈ l → c ∈ t.subscribers) →
      ∃ s1 fNew t1,
        fanOut ev s failed0 l = (s1, failed0 ++ fNew) ∧
        Inv s1 ∧
        s1.topics tn = some t1 ∧
        t1.messageHistory = t.messageHistory ∧
        (∀ c, c ∈ t1.subscribers ↔ (c ∈ t.subscribers ∧ c ∉ fNew.map Prod.fst)) ∧
        t1.subscribers.length + fNew.length = t.subscribers.length ∧
        (∀ p, p ∈ fNew → p.1 ∈ l) := by
  intro l
  induction l with
  | nil =>
      intro s failed0 t h ht hnd hmem
      refine ⟨s, [], t, by simp [fanOut], h, ht, rfl, ?_, by simp, by simp⟩
      intro c
      simp
  | cons cid rest ih =>
      intro s failed0 t h ht hnd hmem
      rw [fanOut]
      have h1 := Inv_enqueue h cid ev
      cases hr : (enqueueMessage s cid ev).2 with
      | ok u =>
          have htop : (enqueueMessage s cid ev).1.topics = s.topics :=
            enqueue_ok_topics hr
          simp only [hr]
          obtain ⟨s1, fNew, t1, heq, hInv1, ht1, hh1, hiff, hcount, hsubl⟩ :=
            ih (enqueueMessage s cid ev).1 failed0 t h1
              (by rw [htop]; exact ht)
              (List.nodup_cons.mp hnd).2
              (fun c hc => hmem c (List.mem_cons_of_mem cid hc))
          exact ⟨s1, fNew, t1, heq, hInv1, ht1, hh1, hiff, hcount,
            fun p hp => List.mem_cons_of_mem cid (hsubl p hp)⟩
      | error e =>
          have hcid : cid ∈ t.subscribers := hmem cid (List.mem_cons_self cid rest)
          obtain ⟨sub, hsubrec, _⟩ := h.topicSub tn t cid ht hcid
          have ht' : (enqueueMessage s cid ev).1.topics tn =
              some { t with subscribers := sdel t.subscribers cid } :=
            enqueue_error_topics h ⟨sub, hsubrec⟩ hr tn t ht
          simp only [hr]
          have hndr : rest.Nodup := (List.nodup_cons.mp hnd).2
          have hcnr : cid ∉ rest := (List.nodup_cons.mp hnd).1
          obtain ⟨s1, fNew, t1, heq, hInv1, ht1, hh1, hiff, hcount, hsubl⟩ :=
            ih (enqueueMessage s cid ev).1 (failed0 ++ [(cid, e)])
              { t with subscribers := sdel t.subscribers cid } h1 ht' hndr
              (fun c hc => mem_sdel.mpr ⟨hmem c (List.mem_cons_of_mem cid hc),
                fun hce => hcnr (hce ▸ hc)⟩)
          refine ⟨s1, (cid, e) :: fNew, t1, ?_, hInv1, ht1, hh1, ?_, ?_, ?_⟩
          · rw [heq]
            simp
          · intro c
            rw [hiff c]
            constructor
            · rintro ⟨hcs, hcf⟩
              obtain ⟨hct, hne⟩ := mem_sdel.mp hcs
              refine ⟨hct, ?_⟩
              simp only [List.map_cons, List.mem_cons, not_or]
              exact ⟨hne, hcf⟩
            · rintro ⟨hct, hcf⟩
              simp only [List.map_cons, List.mem_cons, not_or] at hcf
              exact ⟨mem_sdel.mpr ⟨hct, hcf.1⟩, hcf.2⟩
          · have hlen := sdel_length (h.topicNodup tn t ht) hcid
            have hcount1 : t1.subscribers.length + fNew.length =
                (sdel t.subscribers cid).length := hcount
            simp only [List.length_cons]
            omega
          · intro p hp
            rcases List.mem_cons.mp hp with rfl | hmemf
            · exact List.mem_cons_self cid rest
            · exact List.mem_cons_of_mem cid (hsubl p hmemf)

/-- C1 (amended): `publish` on an existing topic never raises — it returns
`ok` with `failedDeliveries` listing exactly the snapshot subscribers whose
enqueue failed (each of which is also removed from the topic by the failing
enqueue), and `subscribersReached` equal to the post-fan-out subscriber
count minus the number of failures — that is, successes minus failures (an
`Int`, possibly negative), not the number of successes. -/
theorem publish_spec {s : Sys} {tn : String} {t : Topic} (h : Inv s)
    (ht : s.topics tn = some t) (msg : String) (ts : Nat) :
    ∃ s1 r t1,
      publish s tn msg ts = (s1, .ok r) ∧
      r.topic = tn ∧
      s1.topics tn = some t1 ∧
      (∀ c, c ∈ r.failedDeliveries.map Prod.fst ↔
        (c ∈ t.subscribers ∧ c ∉ t1.subscribers)) ∧
      r.subscribersReached = (t1.subscribers.length : Int) - r.failedDeliveries.length ∧
      (r.subscribersReached + 2 * r.failedDeliveries.length : Int) =
        t.subscribers.length := by
  simp only [publish, ht]
  obtain ⟨sA, fNew, t1, heq, hInvA, htA, hhA, hiffA, hcountA, hsublA⟩ :=
    fanOut_spec (Frame.event (Event.mk tn msg ts)) tn t.subscribers
      ({ s with topics := upd s.topics tn (some { t with messageHistory :=
        (if s.ringBufferSize < (t.messageHistory ++ [Event.mk tn msg ts]).length
         then (t.messageHistory ++ [Event.mk tn msg ts]).tail
         else t.messageHistory ++ [Event.mk tn msg ts]) }) } : Sys)
      [] { t with messageHistory :=
        (if s.ringBufferSize < (t.messageHistory ++ [Event.mk tn msg ts]).length
         then (t.messageHistory ++ [Event.mk tn msg ts]).tail
         else t.messageHistory ++ [Event.mk tn msg ts]) }
      (Inv_setHistory h ht _)
      (by
        show upd s.topics tn (some { t with messageHistory :=
          (if s.ringBufferSize < (t.messageHistory ++ [Event.mk tn msg ts]).length
           then (t.messageHistory ++ [Event.mk tn msg ts]).tail
           else t.messageHistory ++ [Event.mk tn msg ts]) }) tn = _
        rw [upd_same])
      (h.topicNodup tn t ht) (fun c hc => hc)
  rw [heq]
  simp only [List.nil_append]
  have hc2 : t1.subscribers.length + fNew.length = t.subscribers.length := hcountA
  have hiffB : ∀ c, c ∈ fNew.map Prod.fst ↔
      (c ∈ t.subscribers ∧ c ∉ t1.subscribers) := by
    intro c
    constructor
    · intro hcf
      have hct : c ∈ t.subscribers := by
        obtain ⟨p, hp, he⟩ := List.mem_map.mp hcf
        exact he ▸ hsublA p hp
      refine ⟨hct, fun hc1 => ?_⟩
      exact ((hiffA c).mp hc1).2 hcf
    · rintro ⟨hct, hnt1⟩
      by_contra hcf
      exact hnt1 ((hiffA c).mpr ⟨hct, hcf⟩)
  cases hstv : sA.topicStats tn with
  | none =>
      simp only [hstv]
      rw [show sA.topics tn = some t1 from htA]
      refine ⟨_, _, t1, rfl, rfl, htA, hiffB, rfl, ?_⟩
      show (t1.subscribers.length : Int) - fNew.length + 2 * fNew.length =
        t.subscribers.length
      omega
  | some st =>
      simp only [hstv]
      rw [show sA.topics tn = some t1 from htA]
      refine ⟨_, _, t1, rfl, rfl, htA, hiffB, rfl, ?_⟩
      show (t1.subscribers.length : Int) - fNew.length + 2 * fNew.length =
        t.subscribers.length
      omega

/-- Counterexample to C1: topic `t` has subscribers `a` (transport closed)
and `b` (open). Publishing reaches `b` — its enqueue succeeds and the
event is delivered — while `a` fails, yet the result reports
`subscribersReached = 0`, not the 1 successful enqueue: the code subtracts
the failure count from the post-fan-out subscriber set, which the failing
enqueue has already shrunk. -/
theorem publish_reached_not_successes :
    (publish (runOps (initSys none none none)
        [Op.openTransport 1 true, Op.openTransport 2 true, Op.createTopic "t",
         Op.subscribe "a" 1 "t" 0, Op.subscribe "b" 2 "t" 0,
         Op.closeTransport 1]) "t" "m1" 5).2 =
      Except.ok (PublishResult.mk "t" 0 [("a", "SUBSCRIBER_DISCONNECTED")]) ∧
    ((publish (runOps (initSys none none none)
        [Op.openTransport 1 true, Op.openTransport 2 true, Op.createTopic "t",
         Op.subscribe "a" 1 "t" 0, Op.subscribe "b" 2 "t" 0,
         Op.closeTransport 1]) "t" "m1" 5).1.transports 2).sent =
      [Frame.event (Event.mk "t" "m1" 5)] ∧
    (publish (runOps (initSys none none none)
        [Op.openTransport 1 true, Op.openTransport 2 true, Op.createTopic "t",
         Op.subscribe "a" 1 "t" 0, Op.subscribe "b" 2 "t" 0,
         Op.closeTransport 1]) "t" "m1" 5).1.topics "t" =
      some (Topic.mk ["b"] [Event.mk "t" "m1" 5]) := by
  decide

/-- Witness for C1 (amended), at the two-subscriber counterexample
state. -/
theorem publish_spec_witness :
    ∃ s1 r t1,
      publish (runOps (initSys none none none)
          [Op.openTransport 1 true, Op.openTransport 2 true, Op.createTopic "t",
           Op.subscribe "a" 1 "t" 0, Op.subscribe "b" 2 "t" 0,
           Op.closeTransport 1]) "t" "m1" 5 = (s1, .ok r) ∧
      r.topic = "t" ∧
      s1.topics "t" = some t1 ∧
      (∀ c, c ∈ r.failedDeliveries.map Prod.fst ↔
        (c ∈ (Topic.mk ["a", "b"] []).subscribers ∧ c ∉ t1.subscribers)) ∧
      r.subscribersReached = (t1.subscribers.length : Int) - r.failedDeliveries.length ∧
      (r.subscribersReached + 2 * r.failedDeliveries.length : Int) =
        (Topic.mk ["a", "b"] []).subscribers.length :=
  publish_spec
    (Inv_runOps (Inv_init none none none)
      [Op.openTransport 1 true, Op.openTransport 2 true, Op.createTopic "t",
       Op.subscribe "a" 1 "t" 0, Op.subscribe "b" 2 "t" 0, Op.closeTransport 1])
    (by decide) "m1" 5

/-- Counterexample to C4: subscriber `a` sits on an OPEN transport whose
`send` throws. `delete_topic` does not enqueue `topic_deleted` onto `a`'s
outbound queue — the notification is a direct best-effort `ws.send`, so
after deletion the queue is still empty, nothing reached the socket, the
record survives detached, and backpressure never engaged. -/
theorem deleteTopic_bypasses_queue :
    (runOps (initSys none none none)
        [Op.openTransport 1 false, Op.createTopic "t",
         Op.subscribe "a" 1 "t" 0, Op.deleteTopic "t"]).subscribers "a" =
      some (Subscriber.mk 1 [] []) ∧
    ((runOps (initSys none none none)
        [Op.openTransport 1 false, Op.createTopic "t",
         Op.subscribe "a" 1 "t" 0, Op.deleteTopic "t"]).transports 1).sent = [] ∧
    ((runOps (initSys none none none)
        [Op.openTransport 1 false, Op.createTopic "t",
         Op.subscribe "a" 1 "t" 0, Op.deleteTopic "t"]).transports 1).readyState
      = 1 ∧
    (runOps (initSys none none none)
        [Op.openTransport 1 false, Op.createTopic "t",
         Op.subscribe "a" 1 "t" 0, Op.deleteTopic "t"]).topics "t" = none := by
  decide

/-- C4 (amended): `deleteTopic` on an existing topic notifies each joined
subscriber with a direct best-effort `ws.send` of the `topic_deleted` info
frame when its transport is OPEN — bypassing the outbound queue and the
backpressure machinery, so the record's queue is unchanged — removes the
topic name from each joined subscriber's topic set, discards the topic,
and afterwards publish to that name fails `TOPIC_NOT_FOUND`. Stated for a
joined subscriber whose transport no other member of the topic shares. -/
theorem deleteTopic_spec {s : Sys} {name : String} {t : Topic} {cid : String}
    {sub : Subscriber}
    (ht : s.topics name = some t) (hnd : t.subscribers.Nodup)
    (hs : s.subscribers cid = some sub) (hmem : cid ∈ t.subscribers)
    (hiso : ∀ c ∈ t.subscribers, c ≠ cid → ∀ sub',
      s.subscribers c = some sub' → sub'.ws ≠ sub.ws) :
    (deleteTopic s name).2 = .ok name ∧
    (deleteTopic s name).1.topics name = none ∧
    (deleteTopic s name).1.subscribers cid =
      some { sub with topics := sdel sub.topics name } ∧
    (deleteTopic s name).1.transports sub.ws =
      (if (s.transports sub.ws).readyState = 1 then
        ((s.transports sub.ws).send (Frame.info name "topic_deleted")).1
      else s.transports sub.ws) ∧
    ∀ msg ts, (publish (deleteTopic s name).1 name msg ts).2 =
      .error "TOPIC_NOT_FOUND" := by
  have h2 : (deleteTopic s name).1.topics name = none := by
    simp only [deleteTopic, ht]
    exact upd_same _ _ _
  refine ⟨?_, h2, ?_, ?_, ?_⟩
  · simp only [deleteTopic, ht]
  · simp only [deleteTopic, ht]
    show (detachLoop name (notifyLoop name s t.subscribers)
        t.subscribers).subscribers cid = _
    rw [detachLoop_subscribers_of_mem name _ hnd hmem, notifyLoop_subscribers, hs]
    rfl
  · simp only [deleteTopic, ht]
    show (detachLoop name (notifyLoop name s t.subscribers)
        t.subscribers).transports sub.ws = _
    rw [detachLoop_transports]
    exact notifyLoop_transports_mem name s hnd hmem hs hiso
  · intro msg ts
    rw [publish_of_none _ msg ts h2]

/-- Witness for C4 (amended): one subscriber on an OPEN transport whose
`send` succeeds — the `topic_deleted` info frame goes straight to the
socket, the record survives with an empty topic set and untouched queue,
and the topic is gone. -/
theorem deleteTopic_spec_witness :
    (deleteTopic (runOps (initSys none none none)
        [Op.openTransport 1 true, Op.createTopic "t",
         Op.subscribe "a" 1 "t" 0]) "t").2 = .ok "t" ∧
    (deleteTopic (runOps (initSys none none none)
        [Op.openTransport 1 true, Op.createTopic "t",
         Op.subscribe "a" 1 "t" 0]) "t").1.topics "t" = none ∧
    (deleteTopic (runOps (initSys none none none)
        [Op.openTransport 1 true, Op.createTopic "t",
         Op.subscribe "a" 1 "t" 0]) "t").1.subscribers "a" =
      some (Subscriber.mk 1 [] []) ∧
    (deleteTopic (runOps (initSys none none none)
        [Op.openTransport 1 true, Op.createTopic "t",
         Op.subscribe "a" 1 "t" 0]) "t").1.transports 1 =
      (if ((runOps (initSys none none none)
          [Op.openTransport 1 true, Op.createTopic "t",
           Op.subscribe "a" 1 "t" 0]).transports 1).readyState = 1 then
        (((runOps (initSys none none none)
            [Op.openTransport 1 true, Op.createTopic "t",
             Op.subscribe "a" 1 "t" 0]).transports 1).send
          (Frame.info "t" "topic_deleted")).1
      else (runOps (initSys none none none)
          [Op.openTransport 1 true, Op.createTopic "t",
           Op.subscribe "a" 1 "t" 0]).transports 1) ∧
    ∀ msg ts, (publish (deleteTopic (runOps (initSys none none none)
        [Op.openTransport 1 true, Op.createTopic "t",
         Op.subscribe "a" 1 "t" 0]) "t").1 "t" msg ts).2 =
      .error "TOPIC_NOT_FOUND" :=
  @deleteTopic_spec
    (runOps (initSys none none none)
      [Op.openTransport 1 true, Op.createTopic "t", Op.subscribe "a" 1 "t" 0])
    "t" (Topic.mk ["a"] []) "a" (Subscriber.mk 1 ["t"] [])
    (by decide) (by decide) (by decide) (by decide)
    (fun c hc hne sub' hsub' => absurd (List.mem_singleton.mp hc) hne)

/-- C10: when a subscriber record for the client already exists, the
transport argument of `subscribe` is ignored — the whole call computes the
same successor state and result for every supplied transport id, the
record's binding keeps the original `ws` through the call (replay
included), and a genuinely different supplied transport receives
nothing. -/
theorem subscribe_ignores_transport {s : Sys} {cid : String} {sub : Subscriber}
    (hs : s.subscribers cid = some sub) (w2 : Nat) (tn : String) (lastN : Nat) :
    (∀ w3, subscribe s cid w2 tn lastN = subscribe s cid w3 tn lastN) ∧
    (∀ sub', (subscribe s cid w2 tn lastN).1.subscribers cid = some sub' →
      sub'.ws = sub.ws) ∧
    (w2 ≠ sub.ws →
      (subscribe s cid w2 tn lastN).1.transports w2 = s.transports w2) := by
  have hignore : ∀ w3, subscribe s cid w2 tn lastN = subscribe s cid w3 tn lastN := by
    intro w3
    cases ht : s.topics tn with
    | none => simp only [subscribe, ht]
    | some t => simp only [subscribe, ht, hs]
  refine ⟨hignore, ?_, ?_⟩ <;>
    rcases subscribe_result_cases hs w2 tn lastN with heq | ⟨s3, evs, hsub3, htr3, hres⟩
  · intro sub' h
    rw [heq, hs] at h
    obtain rfl := Option.some.inj h
    rfl
  · have hsub3c : s3.subscribers cid =
        some { sub with topics := sadd sub.topics tn } := by
      rw [hsub3]
      exact upd_same _ _ _
    rcases hres with h3 | hr
    · intro sub' h
      rw [h3, hsub3c] at h
      obtain rfl := Option.some.inj h
      rfl
    · intro sub' h
      rw [hr] at h
      obtain ⟨sub0, h0, hw⟩ := replayLoop_subscribers_ws evs s3 h
      rw [hsub3c] at h0
      obtain rfl := Option.some.inj h0
      exact hw
  · intro _
    rw [heq]
  · have hsub3c : s3.subscribers cid =
        some { sub with topics := sadd sub.topics tn } := by
      rw [hsub3]
      exact upd_same _ _ _
    intro hne
    have hblock : ∀ sub0, s3.subscribers cid = some sub0 → sub0.ws ≠ w2 := by
      intro sub0 h0
      rw [hsub3c] at h0
      obtain rfl := Option.some.inj h0
      exact Ne.symm hne
    rcases hres with h3 | hr
    · rw [h3]
      exact congrFun htr3 w2
    · rw [hr, replayLoop_transports_other evs s3 hblock]
      exact congrFun htr3 w2

/-- Witness for C10: client `a` is bound to transport 1; a second
`subscribe` supplying transport 2 (with one event to replay) changes
nothing about the binding and leaves transport 2 untouched. -/
theorem subscribe_ignores_transport_witness :
    (∀ w3, subscribe (runOps (initSys none none none)
        [Op.openTransport 1 true, Op.openTransport 2 true, Op.createTopic "t",
         Op.subscribe "a" 1 "t" 0, Op.publish "t" "m" 1]) "a" 2 "t" 1 =
      subscribe (runOps (initSys none none none)
        [Op.openTransport 1 true, Op.openTransport 2 true, Op.createTopic "t",
         Op.subscribe "a" 1 "t" 0, Op.publish "t" "m" 1]) "a" w3 "t" 1) ∧
    (∀ sub', (subscribe (runOps (initSys none none none)
        [Op.openTransport 1 true, Op.openTransport 2 true, Op.createTopic "t",
         Op.subscribe "a" 1 "t" 0, Op.publish "t" "m" 1]) "a" 2 "t" 1).1.subscribers
          "a" = some sub' →
      sub'.ws = (Subscriber.mk 1 ["t"] []).ws) ∧
    ((2 : Nat) ≠ (Subscriber.mk 1 ["t"] []).ws →
      (subscribe (runOps (initSys none none none)
          [Op.openTransport 1 true, Op.openTransport 2 true, Op.createTopic "t",
           Op.subscribe "a" 1 "t" 0, Op.publish "t" "m" 1]) "a" 2 "t" 1).1.transports 2 =
        (runOps (initSys none none none)
          [Op.openTransport 1 true, Op.openTransport 2 true, Op.createTopic "t",
           Op.subscribe "a" 1 "t" 0, Op.publish "t" "m" 1]).transports 2) :=
  subscribe_ignores_transport (by decide) 2 "t" 1

end PubSub
